import Mathlib

/-!
Verification development for the collegeaibot repository.

The Python source manipulates JSON-like documents (nested dicts/lists of
scalars).  We embed these documents as the inductive type `Val` below and
translate the relevant functions of
`src/collegeaibot/intake/agent.py`, `src/collegeaibot/scholarships/agent.py`
and `src/collegeaibot/general_chat/agent.py` into executable Lean
definitions.  Python dicts are modelled as insertion-ordered association
lists; writing to an existing key keeps its position, writing a fresh key
appends at the end, exactly as in CPython.  Python floats never flow into a
comparison or arithmetic operation on any code path modelled here, so JSON
numbers are carried as exact rationals.
-/

set_option maxHeartbeats 1000000

namespace CollegeAiBot

/-- JSON-like values: the document type manipulated by the agents. -/
inductive Val where
  | null : Val
  | bool (b : Bool) : Val
  | num (q : ℚ) : Val
  | str (s : String) : Val
  | list (items : List Val) : Val
  | obj (fields : List (String × Val)) : Val
  deriving Repr

mutual

/-- Structural equality test on JSON values. -/
def Val.beq : Val → Val → Bool
  | .null, .null => true
  | .bool a, .bool b => a = b
  | .num a, .num b => a = b
  | .str a, .str b => a = b
  | .list a, .list b => Val.beqL a b
  | .obj a, .obj b => Val.beqF a b
  | _, _ => false

/-- Structural equality on lists of JSON values. -/
def Val.beqL : List Val → List Val → Bool
  | [], [] => true
  | a :: as, b :: bs => Val.beq a b && Val.beqL as bs
  | _, _ => false

/-- Structural equality on association lists of JSON values. -/
def Val.beqF : List (String × Val) → List (String × Val) → Bool
  | [], [] => true
  | (k, a) :: as, (l, b) :: bs => k = l && (Val.beq a b && Val.beqF as bs)
  | _, _ => false

end

mutual

theorem Val.beq_refl : ∀ a : Val, Val.beq a a = true
  | .null => rfl
  | .bool a => by simp [Val.beq]
  | .num a => by simp [Val.beq]
  | .str a => by simp [Val.beq]
  | .list a => by simp [Val.beq, Val.beqL_refl a]
  | .obj a => by simp [Val.beq, Val.beqF_refl a]

theorem Val.beqL_refl : ∀ a : List Val, Val.beqL a a = true
  | [] => rfl
  | a :: as => by simp [Val.beqL, Val.beq_refl a, Val.beqL_refl as]

theorem Val.beqF_refl : ∀ a : List (String × Val), Val.beqF a a = true
  | [] => rfl
  | (k, a) :: as => by simp [Val.beqF, Val.beq_refl a, Val.beqF_refl as]

end

mutual

theorem Val.eq_of_beq : ∀ a b : Val, Val.beq a b = true → a = b
  | .null, .null, _ => rfl
  | .bool a, .bool b, h => by simpa [Val.beq] using h
  | .num a, .num b, h => by simpa [Val.beq] using h
  | .str a, .str b, h => by simpa [Val.beq] using h
  | .list a, .list b, h => by
      simp only [Val.beq] at h
      exact congrArg Val.list (Val.eqL_of_beq a b h)
  | .obj a, .obj b, h => by
      simp only [Val.beq] at h
      exact congrArg Val.obj (Val.eqF_of_beq a b h)
  | .null, .bool _, h => by simp [Val.beq] at h
  | .null, .num _, h => by simp [Val.beq] at h
  | .null, .str _, h => by simp [Val.beq] at h
  | .null, .list _, h => by simp [Val.beq] at h
  | .null, .obj _, h => by simp [Val.beq] at h
  | .bool _, .null, h => by simp [Val.beq] at h
  | .bool _, .num _, h => by simp [Val.beq] at h
  | .bool _, .str _, h => by simp [Val.beq] at h
  | .bool _, .list _, h => by simp [Val.beq] at h
  | .bool _, .obj _, h => by simp [Val.beq] at h
  | .num _, .null, h => by simp [Val.beq] at h
  | .num _, .bool _, h => by simp [Val.beq] at h
  | .num _, .str _, h => by simp [Val.beq] at h
  | .num _, .list _, h => by simp [Val.beq] at h
  | .num _, .obj _, h => by simp [Val.beq] at h
  | .str _, .null, h => by simp [Val.beq] at h
  | .str _, .bool _, h => by simp [Val.beq] at h
  | .str _, .num _, h => by simp [Val.beq] at h
  | .str _, .list _, h => by simp [Val.beq] at h
  | .str _, .obj _, h => by simp [Val.beq] at h
  | .list _, .null, h => by simp [Val.beq] at h
  | .list _, .bool _, h => by simp [Val.beq] at h
  | .list _, .num _, h => by simp [Val.beq] at h
  | .list _, .str _, h => by simp [Val.beq] at h
  | .list _, .obj _, h => by simp [Val.beq] at h
  | .obj _, .null, h => by simp [Val.beq] at h
  | .obj _, .bool _, h => by simp [Val.beq] at h
  | .obj _, .num _, h => by simp [Val.beq] at h
  | .obj _, .str _, h => by simp [Val.beq] at h
  | .obj _, .list _, h => by simp [Val.beq] at h

theorem Val.eqL_of_beq : ∀ a b : List Val, Val.beqL a b = true → a = b
  | [], [], _ => rfl
  | a :: as, b :: bs, h => by
      simp only [Val.beqL, Bool.and_eq_true] at h
      rw [Val.eq_of_beq a b h.1, Val.eqL_of_beq as bs h.2]
  | [], _ :: _, h => by simp [Val.beqL] at h
  | _ :: _, [], h => by simp [Val.beqL] at h

theorem Val.eqF_of_beq : ∀ a b : List (String × Val), Val.beqF a b = true → a = b
  | [], [], _ => rfl
  | (k, a) :: as, (l, b) :: bs, h => by
      simp only [Val.beqF, Bool.and_eq_true, decide_eq_true_eq] at h
      rw [h.1, Val.eq_of_beq a b h.2.1, Val.eqF_of_beq as bs h.2.2]
  | [], _ :: _, h => by simp [Val.beqF] at h
  | _ :: _, [], h => by simp [Val.beqF] at h

end

instance : DecidableEq Val := fun a b =>
  decidable_of_iff (Val.beq a b = true)
    ⟨Val.eq_of_beq a b, fun h => h ▸ Val.beq_refl a⟩

instance : BEq Val := ⟨fun a b => a = b⟩

instance : LawfulBEq Val where
  eq_of_beq h := of_decide_eq_true h
  rfl := decide_eq_true rfl

/-- `str.strip()` on a character list: drop leading and trailing whitespace. -/
def stripList (cs : List Char) : List Char :=
  ((cs.dropWhile Char.isWhitespace).reverse.dropWhile Char.isWhitespace).reverse

/-- Python `s.strip()`. -/
def pyStrip (s : String) : String :=
  String.mk (stripList s.data)

/-- Python `path.split(".")` on a character list, keeping empty pieces. -/
def splitDotsL : List Char → List (List Char)
  | [] => [[]]
  | c :: rest =>
      if c = '.' then [] :: splitDotsL rest
      else
        match splitDotsL rest with
        | seg :: segs => (c :: seg) :: segs
        | [] => [[c]]

namespace Val

/-- Python truthiness of a JSON value: `None`, `False`, `0`, `""`, `[]`, `{}`
are falsy, everything else is truthy. -/
def truthy : Val → Bool
  | .null => false
  | .bool b => b
  | .num q => q != 0
  | .str s => s ≠ ""
  | .list l => !l.isEmpty
  | .obj fs => !fs.isEmpty

/-- Is the value a dict (`isinstance(v, dict)`)? -/
def isObj : Val → Bool
  | .obj _ => true
  | _ => false

/-- Is the value a list (`isinstance(v, list)`)? -/
def isList : Val → Bool
  | .list _ => true
  | _ => false

/-- Is the value a string (`isinstance(v, str)`)? -/
def isStr : Val → Bool
  | .str _ => true
  | _ => false

end Val

/-- First-match lookup in an association list (Python `d.get(k)` returns the
entry for `k`; CPython keys are unique, our model takes the first match). -/
def assocGet : List (String × Val) → String → Option Val
  | [], _ => none
  | (k', v') :: rest, k => if k' = k then some v' else assocGet rest k

/-- CPython dict assignment `d[k] = v`: an existing key keeps its position,
a fresh key is appended at the end. -/
def assocSet : List (String × Val) → String → Val → List (String × Val)
  | [], k, v => [(k, v)]
  | (k', v') :: rest, k, v =>
      if k' = k then (k, v) :: rest else (k', v') :: assocSet rest k v

/-- Python `d.get(k)` with default `None`. -/
def pyGet (d : Val) (k : String) : Val :=
  match d with
  | .obj fs => (assocGet fs k).getD .null
  | _ => .null

/-- `_get_by_path` from intake/agent.py: walk a dot-path, returning `None`
as soon as a non-dict is hit (`cur.get(part)` of a missing key is `None`). -/
def getByPathParts : Val → List String → Val
  | d, [] => d
  | .obj fs, p :: rest => getByPathParts ((assocGet fs p).getD .null) rest
  | _, _ :: _ => .null

/-- Python `path.split(".")` keeping empty pieces (used by `_get_by_path`). -/
def splitDots (p : String) : List String :=
  (splitDotsL p.data).map String.mk

/-- `_get_by_path(d, path)`. -/
def getByPath (d : Val) (path : String) : Val :=
  getByPathParts d (splitDots path)

mutual

/-- `_is_answered` from intake/agent.py: `None` is unanswered; a string is
answered iff non-blank after strip; a list iff non-empty; a dict iff some
value is answered; every other value (numbers, booleans) is answered. -/
def isAnswered : Val → Bool
  | .null => false
  | .str s => !(stripList s.data).isEmpty
  | .list l => !l.isEmpty
  | .obj fs => isAnsweredAny fs
  | .num _ => true
  | .bool _ => true

/-- `any(_is_answered(v) for v in value.values())`. -/
def isAnsweredAny : List (String × Val) → Bool
  | [] => false
  | (_, v) :: rest => isAnswered v || isAnsweredAny rest

end

mutual

/-- `_is_set` from scholarships/agent.py (same logic as `_is_answered`). -/
def isSet : Val → Bool
  | .null => false
  | .str s => !(stripList s.data).isEmpty
  | .list l => !l.isEmpty
  | .obj fs => isSetAny fs
  | .num _ => true
  | .bool _ => true

/-- `any(_is_set(x) for x in v.values())`. -/
def isSetAny : List (String × Val) → Bool
  | [] => false
  | (_, v) :: rest => isSet v || isSetAny rest

end

/-- `[p for p in path.split(".") if p]` from `set_by_path`. -/
def splitSegs (p : String) : List String :=
  ((splitDotsL p.data).filter (fun cs => !cs.isEmpty)).map String.mk

/-- `set_by_path` restricted to a pre-split non-empty segment list, acting on
the fields of a dict node.  Intermediate segments coerce a missing or
non-dict child to a fresh `{}` before descending; the final segment assigns
the value verbatim. -/
def setParts : List (String × Val) → List String → Val → List (String × Val)
  | fs, [], _ => fs
  | fs, [k], v => assocSet fs k v
  | fs, k :: rest, v =>
      let childFields := match assocGet fs k with
        | some (.obj gs) => gs
        | _ => []
      assocSet fs k (.obj (setParts childFields rest v))

/-- `set_by_path(dst, path, value)`: a non-dict root is left unchanged (the
loop's `isinstance` guard returns immediately), an empty-after-filter path is
a no-op. -/
def setByPath (dst : Val) (path : String) (value : Val) : Val :=
  match dst with
  | .obj fs => .obj (setParts fs (splitSegs path) value)
  | d => d

/-- One iteration of the `apply_patch_ops` loop: an op must be a dict whose
`path` is a string with non-blank strip; everything else is silently
skipped. -/
def patchStep (d : Val) (op : Val) : Val :=
  match op with
  | .obj fs =>
      match assocGet fs "path" with
      | some (.str p) =>
          if pyStrip p ≠ "" then setByPath d (pyStrip p) ((assocGet fs "value").getD .null)
          else d
      | _ => d
  | _ => d

/-- `apply_patch_ops(dst, ops)`. -/
def applyPatchOps (dst : Val) (ops : List Val) : Val :=
  ops.foldl patchStep dst

mutual

/-- The answered predicate exactly as the specification words it: non-null and
(non-empty string, non-empty list, a mapping containing at least one answered
value, or a truthy scalar of any other type). -/
def isAnsweredClaim : Val → Bool
  | .null => false
  | .str s => s ≠ ""
  | .list l => !l.isEmpty
  | .obj fs => isAnsweredClaimAny fs
  | .num q => q != 0
  | .bool b => b

/-- Some value of the mapping is answered, in the specification's sense. -/
def isAnsweredClaimAny : List (String × Val) → Bool
  | [] => false
  | (_, v) :: rest => isAnsweredClaim v || isAnsweredClaimAny rest

end

/-- A malformed patch op in the sense of the specification: not a mapping,
or its `path` is not a string, or its path has no non-empty dot-segment. -/
def isMalformedOp (op : Val) : Bool :=
  match op with
  | .obj fs =>
      match assocGet fs "path" with
      | some (.str p) => (splitSegs p).isEmpty
      | _ => true
  | _ => true

/-! ### Intake agent (src/collegeaibot/intake/agent.py, intake/schemas.py) -/

/-- `PRIORITY_SLOTS` from intake/schemas.py. -/
def PRIORITY_SLOTS : List String :=
  ["us_only", "residency_status", "state_of_residence", "applicant_type",
   "intended_major_primary", "budget_range_all_in", "regions_open_to",
   "distance_preference"]

/-- `DEEP_PATHS_ORDER` from intake/schemas.py. -/
def DEEP_PATHS_ORDER : List String :=
  ["us_only", "residency_status", "state_of_residence", "applicant_type",
   "entry_term", "hs_grad_year", "college_gpa",
   "intended_major_primary", "intended_major_alternates", "major_certainty",
   "career_goal", "grad_school_plan",
   "budget_range_all_in", "loan_tolerance", "in_state_importance",
   "fafsa_intent", "css_profile_willing",
   "regions_open_to", "distance_preference", "setting_preference",
   "campus_size_pref", "vibe_pref",
   "gpa_unweighted", "gpa_weighted", "class_rank", "highest_math",
   "highest_science", "rigor_tags",
   "test_strategy", "sat.status", "sat.best_total", "sat.ebrw", "sat.math",
   "act.status", "act.best_composite",
   "hard_dealbreakers", "soft_preferences", "top_activities",
   "want_reach_match_safety", "list_size_target"]

/-- The asked-path set computed at the top of `IntakeAgent.next_turn`:
`_meta` must be a dict, `asked_paths` a list, and only strings with
non-blank strip are retained. -/
def computeAskedSet (profile : Val) : List String :=
  let meta := if (pyGet profile "_meta").isObj then pyGet profile "_meta" else .obj []
  let askedPaths := match pyGet meta "asked_paths" with
    | .list l => l
    | _ => []
  askedPaths.filterMap fun p =>
    match p with
    | .str s => if stripList s.data ≠ [] then some s else none
    | _ => none

/-- `unfilled_priority = [p for p in PRIORITY_SLOTS if not _is_answered(...)]`. -/
def unfilledPriority (profile : Val) : List String :=
  PRIORITY_SLOTS.filter fun p => !isAnswered (getByPath profile p)

/-- `filled_priority = [p for p in PRIORITY_SLOTS if p not in unfilled_priority]`. -/
def filledPriority (profile : Val) : List String :=
  PRIORITY_SLOTS.filter fun p => !(unfilledPriority profile).contains p

/-- The deep-mode accumulation loop of `next_turn`: skip paths already asked,
skip paths already answered, keep the rest in order. -/
def unfilledDeepLoop (profile : Val) (askedSet : List String) : List String → List String
  | [] => []
  | p :: rest =>
      if askedSet.contains p then unfilledDeepLoop profile askedSet rest
      else if isAnswered (getByPath profile p) then unfilledDeepLoop profile askedSet rest
      else p :: unfilledDeepLoop profile askedSet rest

/-- `unfilled_deep_paths`: empty unless the completion mode is `"deep"`. -/
def unfilledDeepPaths (mode : String) (profile : Val) : List String :=
  if mode = "deep" then unfilledDeepLoop profile (computeAskedSet profile) DEEP_PATHS_ORDER
  else []

/-- `allow_finish`: starts `True`, forced to `False` when in deep mode with a
non-empty unfilled list. -/
def allowFinish (mode : String) (profile : Val) : Bool :=
  if mode = "deep" && !(unfilledDeepPaths mode profile).isEmpty then false else true

/-- `patch_ops = data.get("profile_patch") or []` followed by
`if isinstance(patch_ops, list): apply_patch_ops(updated_profile, patch_ops)`.
A truthy non-list `profile_patch` is not applied. -/
def applyRespPatch (profile : Val) (data : Val) : Val :=
  let patchOps := if (pyGet data "profile_patch").truthy then pyGet data "profile_patch" else .list []
  match patchOps with
  | .list l => applyPatchOps profile l
  | _ => profile

/-- Recording the asked path after an answer: only when the last question id
is a string with non-blank strip and an answer was supplied.  `_meta` and
`asked_paths` are re-read from the updated profile with the same type guards
and re-assigned.  (`next_turn` receives a dict profile; a non-dict is inert.) -/
def markAsked (updated : Val) (lastQid : Option String) (lastAnswer : Option String) : Val :=
  match lastQid, lastAnswer with
  | some q, some _ =>
      if stripList q.data ≠ [] then
        let qs := pyStrip q
        let meta := if (pyGet updated "_meta").isObj then pyGet updated "_meta" else .obj []
        let asked := match pyGet meta "asked_paths" with
          | .list l => l
          | _ => []
        let asked := if asked.contains (Val.str qs) then asked else asked ++ [Val.str qs]
        let metaFields := match meta with
          | .obj fs => fs
          | _ => []
        match updated with
        | .obj fs => .obj (assocSet fs "_meta" (.obj (assocSet metaFields "asked_paths" (.list asked))))
        | d => d
      else updated
  | _, _ => updated

/-- The recomputation inside the premature-FINISH branch:
`[p for p in DEEP_PATHS_ORDER if p not in asked_u_set and not _is_answered(...)]`,
with the asked set rebuilt from the updated profile via the same guards. -/
def deepRemaining (updated : Val) : List String :=
  DEEP_PATHS_ORDER.filter fun p =>
    !(computeAskedSet updated).contains p && !isAnswered (getByPath updated p)

/-- Result of one intake turn: the structured response handed to the caller,
the updated profile, how many oracle calls were made, and the field path
named in the forced directive when a second call occurred. -/
structure IntakeResult where
  data : Val
  profile : Val
  oracleCalls : Nat
  forcedPath : Option String
  deriving Repr, DecidableEq

/-- `IntakeAgent.next_turn`, with the oracle abstracted: `resp1` is the parsed
JSON object of the first oracle call, `resp2` that of the (possible) forced
second call.  Prompt strings are not modelled; the forced directive's field
path is returned as `forcedPath`. -/
def intakeNextTurn (mode : String) (profile : Val) (lastAnswer lastQid : Option String)
    (resp1 resp2 : Val) : IntakeResult :=
  let data := resp1
  let updated := applyRespPatch profile data
  let updated := markAsked updated lastQid lastAnswer
  if mode = "deep" ∧ pyGet data "action" = Val.str "FINISH" then
    match deepRemaining updated with
    | forced :: _ =>
        let data2 := resp2
        let updated2 := applyRespPatch updated data2
        ⟨data2, updated2, 2, some forced⟩
    | [] => ⟨data, updated, 1, none⟩
  else ⟨data, updated, 1, none⟩

/-! ### Deadline parsing (src/collegeaibot/scholarships/agent.py, `_parse_date_str`)

The two `re.search` patterns are modelled as executable leftmost-match
scanners over character lists.  Word boundaries, the ordered alternation of
month names with greedy optional suffixes, the greedy `\d{1,2}` day/month
groups and the greedy `\d{2,4}` year group (with its trailing boundary) are
reproduced including their backtracking order; `\w`, `\d` and `\s` are taken
in their ASCII readings. -/

/-- A regex word character (`\w`). -/
def isWordChar (c : Char) : Bool := c.isAlphanum || c = '_'

/-- `_MONTHS` from scholarships/agent.py. -/
def MONTHS : List (String × Nat) :=
  [("jan", 1), ("january", 1), ("feb", 2), ("february", 2), ("mar", 3), ("march", 3),
   ("apr", 4), ("april", 4), ("may", 5), ("jun", 6), ("june", 6), ("jul", 7), ("july", 7),
   ("aug", 8), ("august", 8), ("sep", 9), ("sept", 9), ("september", 9),
   ("oct", 10), ("october", 10), ("nov", 11), ("november", 11), ("dec", 12), ("december", 12)]

/-- `_MONTHS.get(name)`. -/
def assocFind : List (String × Nat) → String → Option Nat
  | [], _ => none
  | (k, n) :: rest, s => if k = s then some n else assocFind rest s

/-- The month-name alternation
`Jan(?:uary)?|Feb(?:ruary)?|...|Dec(?:ember)?` flattened into candidate
literals in regex try-order: branches in order, and within a branch the
greedy optional suffix first. -/
def monthCandidates : List String :=
  ["january", "jan", "february", "feb", "march", "mar", "april", "apr", "may",
   "june", "jun", "july", "jul", "august", "aug", "sept", "september", "sep",
   "october", "oct", "november", "nov", "december", "dec"]

/-- Case-insensitive prefix test: the (lower-case) pattern against the input. -/
def startsWithCI : List Char → List Char → Bool
  | [], _ => true
  | _ :: _, [] => false
  | p :: ps, c :: cs => p = c.toLower && startsWithCI ps cs

/-- Numeric value of a decimal digit character. -/
def digitVal (c : Char) : Nat := c.toNat - 48

/-- Value of a digit run. -/
def digitsToNat (cs : List Char) : Nat :=
  cs.foldl (fun n c => 10 * n + digitVal c) 0

/-- `\s*,\s*(\d{4})` — the tail after the optional ordinal suffix. -/
def matchCommaYear (r : List Char) : Option Nat :=
  match r.dropWhile Char.isWhitespace with
  | ',' :: r2 =>
      match r2.dropWhile Char.isWhitespace with
      | a :: b :: c :: d :: _ =>
          if a.isDigit && b.isDigit && c.isDigit && d.isDigit then
            some (1000 * digitVal a + 100 * digitVal b + 10 * digitVal c + digitVal d)
          else none
      | _ => none
  | _ => none

/-- `(?:st|nd|rd|th)?` — at most one alternative can match, since their first
characters differ. -/
def tryOrdinal (r : List Char) : Option (List Char) :=
  match r with
  | a :: b :: rest =>
      if (a.toLower = 's' && b.toLower = 't') || (a.toLower = 'n' && b.toLower = 'd')
          || (a.toLower = 'r' && b.toLower = 'd') || (a.toLower = 't' && b.toLower = 'h') then
        some rest
      else none
  | _ => none

/-- After the day digits: greedy optional ordinal suffix, backtracking to the
suffixless reading when the tail fails, then `\s*,\s*(\d{4})`. -/
def afterDay (r : List Char) : Option Nat :=
  match tryOrdinal r with
  | some r2 =>
      match matchCommaYear r2 with
      | some y => some y
      | none => matchCommaYear r
  | none => matchCommaYear r

/-- `(\d{1,2})` (greedy, two digits first) followed by the rest of the month
pattern; returns day and year. -/
def matchDayYear : List Char → Option (Nat × Nat)
  | c1 :: c2 :: r2 =>
      if c1.isDigit then
        if c2.isDigit then
          match afterDay r2 with
          | some y => some (10 * digitVal c1 + digitVal c2, y)
          | none =>
              match afterDay (c2 :: r2) with
              | some y => some (digitVal c1, y)
              | none => none
        else
          match afterDay (c2 :: r2) with
          | some y => some (digitVal c1, y)
          | none => none
      else none
  | [c1] =>
      if c1.isDigit then
        match afterDay [] with
        | some y => some (digitVal c1, y)
        | none => none
      else none
  | [] => none

/-- After a month-name candidate: `\b\s+` then the day/year part.  The
boundary is subsumed by `\s+` (a whitespace character is never a word
character). -/
def afterMonth : List Char → Option (Nat × Nat)
  | [] => none
  | c :: r =>
      if c.isWhitespace then matchDayYear (r.dropWhile Char.isWhitespace)
      else none

/-- Try the month-name candidates at a fixed position, in regex try-order,
backtracking to later candidates when the continuation fails. -/
def tryMonthCands (cs : List Char) : List String → Option (String × Nat × Nat)
  | [] => none
  | cand :: more =>
      if startsWithCI cand.data cs then
        match afterMonth (cs.drop cand.data.length) with
        | some (d, y) => some (cand, d, y)
        | none => tryMonthCands cs more
      else tryMonthCands cs more

/-- Leftmost search of the month/day/year pattern, scanning positions left to
right; the leading `\b` needs the previous character (if any) to be a
non-word character. -/
def searchMonth : Option Char → List Char → Option (String × Nat × Nat)
  | _, [] => none
  | prev, c :: rest =>
      let boundary := match prev with
        | none => true
        | some pc => !isWordChar pc
      match (if boundary then tryMonthCands (c :: rest) monthCandidates else none) with
      | some r => some r
      | none => searchMonth (some c) rest

/-- Trailing boundary `\b`: end of input or a non-word character. -/
def boundaryOk : List Char → Bool
  | [] => true
  | c :: _ => !isWordChar c

/-- `(\d{2,4})\b` (greedy).  A maximal digit run longer than four makes every
greedy length fail its boundary (the following character is a digit), and a
shorter-than-maximal reading always fails its boundary likewise, so the
pattern reduces to: the maximal run has length two to four and is followed
by a boundary. -/
def matchYear24 (r : List Char) : Option Nat :=
  let digs := r.takeWhile Char.isDigit
  if 2 ≤ digs.length && digs.length ≤ 4 && boundaryOk (r.drop digs.length) then
    some (digitsToNat digs)
  else none

/-- `(\d{1,2})/`: two digits then the slash, or one digit then the slash. -/
def matchNum12Slash : List Char → Option (Nat × List Char)
  | a :: b :: rest =>
      if a.isDigit then
        if b.isDigit then
          match rest with
          | '/' :: r2 => some (10 * digitVal a + digitVal b, r2)
          | _ => none
        else if b = '/' then some (digitVal a, rest)
        else none
      else none
  | _ => none

/-- The slash pattern `(\d{1,2})/(\d{1,2})/(\d{2,4})\b` at a fixed position. -/
def trySlashAt (cs : List Char) : Option (Nat × Nat × Nat) :=
  match matchNum12Slash cs with
  | some (m, r1) =>
      match matchNum12Slash r1 with
      | some (d, r2) =>
          match matchYear24 r2 with
          | some y => some (m, d, y)
          | none => none
      | none => none
  | none => none

/-- Leftmost search of the slash pattern with its leading `\b`. -/
def searchSlash : Option Char → List Char → Option (Nat × Nat × Nat)
  | _, [] => none
  | prev, c :: rest =>
      let boundary := match prev with
        | none => true
        | some pc => !isWordChar pc
      match (if boundary then trySlashAt (c :: rest) else none) with
      | some r => some r
      | none => searchSlash (some c) rest

/-- Gregorian leap year, as `datetime.date` uses. -/
def isLeap (y : Nat) : Bool := y % 4 = 0 && (y % 100 ≠ 0 || y % 400 = 0)

/-- Days in a month, as `datetime.date` validates. -/
def daysInMonth (y m : Nat) : Nat :=
  if m = 2 then (if isLeap y then 29 else 28)
  else if m = 4 || m = 6 || m = 9 || m = 11 then 30 else 31

/-- Zero-padded decimal rendering. -/
def padNum (width n : Nat) : String :=
  let s := toString n
  String.mk (List.replicate (width - s.length) '0') ++ s

/-- `date(year, month, day).isoformat()`, `None` when the constructor would
raise (the code catches the exception and returns `None`). -/
def mkIsoDate (y m d : Nat) : Option String :=
  if 1 ≤ y && y ≤ 9999 && 1 ≤ m && m ≤ 12 && 1 ≤ d && d ≤ daysInMonth y m then
    some (padNum 4 y ++ "-" ++ padNum 2 m ++ "-" ++ padNum 2 d)
  else none

/-- `re.fullmatch(r"\d{4}-\d{2}-\d{2}", s)`. -/
def isoShape : List Char → Bool
  | [y1, y2, y3, y4, h1, m1, m2, h2, d1, d2] =>
      y1.isDigit && y2.isDigit && y3.isDigit && y4.isDigit &&
        h1 = '-' && m1.isDigit && m2.isDigit && h2 = '-' && d1.isDigit && d2.isDigit
  | _ => false

/-- `_parse_date_str(s)`. -/
def parseDateStr (s : String) : Option String :=
  let t := pyStrip s
  if t = "" then none
  else if isoShape t.data then some t
  else
    match searchMonth none t.data with
    | some (mname, d, y) =>
        match assocFind MONTHS mname with
        | some m => mkIsoDate y m d
        | none => none
    | none =>
        match searchSlash none t.data with
        | some (m, d, y) => mkIsoDate (if y < 100 then y + 2000 else y) m d
        | none => none

/-! ### Scholarships agent (src/collegeaibot/scholarships/agent.py) -/

/-- List-level string prefix test (`url.startswith(...)`). -/
def startsWithL : List Char → List Char → Bool
  | [], _ => true
  | _ :: _, [] => false
  | p :: ps, c :: cs => p = c && startsWithL ps cs

/-- `s.startswith(pre)`. -/
def strStartsWith (s pre : String) : Bool := startsWithL pre.data s.data

/-- `str.isdigit()` (ASCII reading): non-empty and all digits. -/
def pyIsdigit (cs : List Char) : Bool := !cs.isEmpty && cs.all Char.isDigit

/-- `.replace(".", "", 1)`: remove the first dot, if any. -/
def removeFirstDot : List Char → List Char
  | [] => []
  | c :: rest => if c = '.' then rest else c :: removeFirstDot rest

/-- `float(a)` for the digits-with-at-most-one-dot strings that pass the
numeric guard, as an exact decimal rational (no modelled code path compares
or computes with the parsed number, so exactness is unobservable). -/
def pyFloat (s : String) : ℚ :=
  let ip := s.data.takeWhile (fun c => c ≠ '.')
  let fp := (s.data.dropWhile (fun c => c ≠ '.')).drop 1
  (digitsToNat ip : ℚ) + (digitsToNat fp : ℚ) / ((10 : ℚ) ^ fp.length)

/-- `_patch_for_answer(question_id, answer)`: empty id or blank answer gives
no ops; an answer whose `_norm` with the first dot removed is all digits is
stored as a number, otherwise as the stripped string. -/
def patchForAnswer (qid answer : String) : List Val :=
  let a := pyStrip answer
  if qid = "" ∨ a = "" then []
  else if pyIsdigit (removeFirstDot ((stripList a.data).map Char.toLower)) then
    [Val.obj [("path", Val.str qid), ("value", Val.num (pyFloat a))]]
  else [Val.obj [("path", Val.str qid), ("value", Val.str a)]]

/-- `GATING_QUESTIONS` from scholarships/agent.py. -/
def GATING_QUESTIONS : List Val :=
  [Val.obj [("id", .str "scholarships.student_level"),
     ("text", .str "What is your current student level for scholarship eligibility?"),
     ("answer_type", .str "choice"),
     ("options", .list [.str "High school senior", .str "High school junior",
        .str "College freshman", .str "Transfer applicant", .str "Other", .str "Skip"])],
   Val.obj [("id", .str "scholarships.citizenship"),
     ("text", .str "What is your citizenship/residency status (for scholarship eligibility)?"),
     ("answer_type", .str "choice"),
     ("options", .list [.str "U.S. citizen", .str "Permanent resident", .str "International",
        .str "Other", .str "Prefer not to say", .str "Skip"])],
   Val.obj [("id", .str "scholarships.state_of_residence"),
     ("text", .str "Which U.S. state do you live in (or are you applying from)?"),
     ("answer_type", .str "text"),
     ("options", .list [.str "Skip"])],
   Val.obj [("id", .str "scholarships.household_income_range"),
     ("text", .str "Rough household income range (helps need-based aid + some programs)?"),
     ("answer_type", .str "choice"),
     ("options", .list [.str "<$40k", .str "$40k–$80k", .str "$80k–$140k",
        .str "$140k+", .str "Not sure", .str "Prefer not to say", .str "Skip"])],
   Val.obj [("id", .str "scholarships.identity_scholarships_opt_in"),
     ("text", .str "Do you want me to include identity-based scholarships (gender/ethnicity/etc.)?"),
     ("answer_type", .str "choice"),
     ("options", .list [.str "Yes", .str "No", .str "Prefer not to say"])],
   Val.obj [("id", .str "scholarships.ethnicity"),
     ("text", .str "Which eligibility group(s) apply (for identity-based scholarships)?"),
     ("answer_type", .str "multi_choice"),
     ("options", .list [.str "Asian", .str "Black/African American", .str "Hispanic/Latino",
        .str "Middle Eastern/North African", .str "Native/Indigenous", .str "Pacific Islander",
        .str "White", .str "Multiracial", .str "Prefer not to say", .str "Skip"]),
     ("depends_on", .obj [("path", .str "scholarships.identity_scholarships_opt_in"),
        ("equals", .str "Yes")])]]

/-- Extract a string field of a dict (the gating data always holds strings
where this is used; a non-string would raise in the source). -/
def strField (v : Val) (k : String) : String :=
  match pyGet v k with
  | .str s => s
  | _ => ""

/-- `{k: v for k, v in q.items() if k != "depends_on"}`. -/
def stripDependsOn (q : Val) : Val :=
  match q with
  | .obj fs => .obj (fs.filter fun kv => kv.1 ≠ "depends_on")
  | v => v

/-- The loop of `_next_gating_question`: skip a question whose `depends_on`
is present but unsatisfied; return the first remaining question whose `id`
path is unset, with `depends_on` removed. -/
def nextGatingFrom (profile : Val) : List Val → Option Val
  | [] => none
  | q :: rest =>
      let dep := pyGet q "depends_on"
      if dep.truthy ∧ getByPath profile (strField dep "path") ≠ pyGet dep "equals" then
        nextGatingFrom profile rest
      else if !isSet (getByPath profile (strField q "id")) then some (stripDependsOn q)
      else nextGatingFrom profile rest

/-- `_next_gating_question(profile)`. -/
def nextGatingQuestion (profile : Val) : Option Val :=
  nextGatingFrom profile GATING_QUESTIONS

/-- An eligible unanswered gating question: `depends_on` absent or satisfied,
and the `id` path unset. -/
def gatingElig (profile : Val) (q : Val) : Bool :=
  (!(pyGet q "depends_on").truthy
      || decide (getByPath profile (strField (pyGet q "depends_on") "path")
            = pyGet (pyGet q "depends_on") "equals"))
    && !isSet (getByPath profile (strField q "id"))

/-- A scholarship record as dumped from the `Scholarship` model. -/
structure SchRec where
  name : String
  college : Option String
  kind : String
  provider : Option String
  award : Option String
  deadline : Option String
  link : String
  why_suitable : String
  key_eligibility : List String
  how_to_apply : List String
  deriving Repr, DecidableEq

/-- The oracle's parsed `NextTurn` (pydantic-validated). -/
structure SchParsed where
  action : String
  question : Option Val
  profilePatch : List (String × Val)
  noteToUser : String
  recommendations : Option (List SchRec)
  deriving Repr, DecidableEq

/-- The turn dict handed back to the caller (`parsed.model_dump` plus the
post-processing of `next_turn`). -/
structure SchTurn where
  action : String
  question : Option Val
  profile_patch : List Val
  note_to_user : String
  recommendations : Option (List SchRec)
  deriving Repr, DecidableEq

/-- `op.model_dump(mode="json")` of a `PatchOp`. -/
def opVal (p : String × Val) : Val :=
  .obj [("path", Val.str p.1), ("value", p.2)]

/-- `_verify_link(url)`: falsy or non-http(s) links are rejected without a
network call; otherwise `probe url` stands for "the GET returned a status
below 400" (`False` also covers any network exception). -/
def verifyLink (probe : String → Bool) (url : String) : Bool :=
  if url = "" then false
  else if !(strStartsWith url "http://" || strStartsWith url "https://") then false
  else probe url

/-- The per-candidate deadline rewrite: parse a truthy `deadline` string,
else fall back to `extract link` standing for `_extract_deadline_iso` (a
network fetch plus the same date patterns). -/
def newDeadline (extract : String → Option String) (link : String)
    (deadline : Option String) : Option String :=
  let iso := match deadline with
    | some d => if d ≠ "" then parseDateStr d else none
    | none => none
  match iso with
  | some x => some x
  | none => extract link

/-- The clarify note used when every recommendation fails verification. -/
def downgradeNote : String :=
  "I couldn\x27t verify the scholarship links I generated. Please share your constraints (citizenship, ethnicity if relevant, state, household income range, and student level), or provide a shortlist of scholarship providers/universities to target."

/-- The verified sublist: cap at `max_recommendations`, drop candidates whose
link fails `_verify_link`, rewrite each surviving deadline. -/
def verifiedList (maxRecs : Nat) (probe : String → Bool) (extract : String → Option String)
    (recs : List SchRec) : List SchRec :=
  (recs.take maxRecs).filterMap fun r =>
    if verifyLink probe r.link then
      some { r with deadline := newDeadline extract r.link r.deadline }
    else none

/-- The defensive cap-verify-downgrade block at the end of
`ScholarshipsAgent.next_turn`. -/
def verifyRecsPhase (maxRecs : Nat) (probe : String → Bool)
    (extract : String → Option String) (turn : SchTurn) : SchTurn :=
  match turn.recommendations with
  | some recs =>
      let verified := verifiedList maxRecs probe extract recs
      let turn2 := { turn with recommendations := some verified }
      if turn2.action = "RECOMMEND" ∧ verified = [] then
        { turn2 with action := "CLARIFY", note_to_user := downgradeNote, question := none }
      else turn2
  | none => turn

/-- Applying the pending answer: `user_ops` and the updated profile. -/
def schApplyAnswer (profile : Val) (lastQid lastAnswer : Option String) : List Val × Val :=
  match lastQid, lastAnswer with
  | some qid, some a =>
      if qid ≠ "" then
        let ops := patchForAnswer qid a
        if ops ≠ [] then (ops, applyPatchOps profile ops) else (ops, profile)
      else ([], profile)
  | _, _ => ([], profile)

/-- Result of one scholarships turn: the turn dict, the updated profile and
the number of oracle calls. -/
structure SchResult where
  turn : SchTurn
  profile : Val
  oracleCalls : Nat
  deriving Repr, DecidableEq

/-- `ScholarshipsAgent.next_turn`, with the oracle (`parse` of the chat
completion), the link probe and the page-text deadline extractor abstracted.
Advisor data only feeds prompt text and is not modelled. -/
def schNextTurn (maxRecs : Nat) (probe : String → Bool) (extract : String → Option String)
    (hasKey : Bool) (oracle : SchParsed) (profile : Val)
    (lastAnswer lastQid : Option String) : SchResult :=
  if getByPath profile "us_only" = Val.bool false then
    ⟨⟨"END_NOT_US", none, [],
      "This scholarships flow currently targets US-based scholarships.", none⟩, profile, 0⟩
  else
    let userOps := (schApplyAnswer profile lastQid lastAnswer).1
    let updated := (schApplyAnswer profile lastQid lastAnswer).2
    if !hasKey then
      ⟨⟨"CLARIFY", none, userOps,
        "Set OPENAI_API_KEY (or a .env file) to use the scholarships recommender.", none⟩,
        updated, 0⟩
    else
      match nextGatingQuestion updated with
      | some gq =>
          ⟨⟨"ASK", some gq, userOps,
            "Quick eligibility question so I can target the right college-specific scholarships.",
            none⟩, updated, 0⟩
      | none =>
          let modelOps := oracle.profilePatch.map opVal
          let updated2 := if modelOps ≠ [] then applyPatchOps updated modelOps else updated
          let turn : SchTurn :=
            ⟨oracle.action, oracle.question, userOps ++ modelOps, oracle.noteToUser,
              oracle.recommendations⟩
          ⟨verifyRecsPhase maxRecs probe extract turn, updated2, 1⟩

/-! ### Context aggregation (src/collegeaibot/general_chat/agent.py) -/

/-- The state of one external JSON store file: absent, present but not valid
JSON (`json.JSONDecodeError`), or parsed JSON. -/
inductive StoreState where
  | missing
  | badJson
  | parsed (v : Val)
  deriving Repr, DecidableEq

/-- `files_to_load` from `GeneralChatAgent.load_student_context`. -/
def contextFiles : List String :=
  ["intake_profiles.json", "advisor_results.json", "cv_review_results.json",
   "scholarship_recommendations.json", "prep_suggestions.json", "scholarships_profiles.json"]

/-- `filename.replace(".json", "")` at the character level. -/
def replaceDotJson : List Char → List Char
  | '.' :: 'j' :: 's' :: 'o' :: 'n' :: rest => replaceDotJson rest
  | c :: rest => c :: replaceDotJson rest
  | [] => []

/-- The aggregation key for a store file. -/
def storeKeyName (filename : String) : String :=
  String.mk (replaceDotJson filename.data)

/-- The per-file loop of `load_student_context`: a missing file records the
"not generated" marker, undecodable JSON the "error reading" marker, and a
parsed store is probed with `full_data.get(client_id)` — which raises
(`AttributeError`) when the parsed value is not a dict — recording the
truthy client entry verbatim and the "no data" marker otherwise. -/
def loadStudentContextFrom (stores : String → StoreState) (clientId : String) :
    List String → Except Unit (List (String × Val))
  | [] => .ok []
  | f :: rest =>
      let key := storeKeyName f
      match stores f with
      | .missing =>
          (loadStudentContextFrom stores clientId rest).map
            fun l => (key, Val.str "File not generated yet.") :: l
      | .badJson =>
          (loadStudentContextFrom stores clientId rest).map
            fun l => (key, Val.str "Error reading file.") :: l
      | .parsed v =>
          match v with
          | .obj fs =>
              let userData := pyGet (.obj fs) clientId
              let entry := if userData.truthy then userData
                else Val.str "No data found for this user."
              (loadStudentContextFrom stores clientId rest).map fun l => (key, entry) :: l
          | _ => .error ()

/-- `GeneralChatAgent.load_student_context` (up to the final `json.dumps`):
the aggregated per-store entries, or an error when the call raises. -/
def loadStudentContext (stores : String → StoreState) (clientId : String) :
    Except Unit (List (String × Val)) :=
  loadStudentContextFrom stores clientId contextFiles

/-- Modelled from the spec: the contribution the specification promises for
one store — the two marker strings for a missing or unreadable file, the
no-data marker when the client has no (truthy) entry, and otherwise the
client's sub-document verbatim. -/
def contextSpecEntry (stores : String → StoreState) (clientId : String) (f : String) :
    String × Val :=
  (storeKeyName f,
    match stores f with
    | .missing => Val.str "File not generated yet."
    | .badJson => Val.str "Error reading file."
    | .parsed v =>
        let u := pyGet v clientId
        if u.truthy then u else Val.str "No data found for this user.")

/-- Modelled from the spec: the full aggregation the specification promises. -/
def contextSpecList (stores : String → StoreState) (clientId : String) :
    List (String × Val) :=
  contextFiles.map (contextSpecEntry stores clientId)

/-- A store that cannot make `full_data.get` raise: if parsed, it parsed to a
dict. -/
def storeWellFormed : StoreState → Bool
  | .parsed v => v.isObj
  | _ => true

/-! ### Patch-application normal form

For the idempotence of `apply_patch_ops` we give the action of an op list a
normal form: an *effect tree* recording, per key, the last wholesale write
and the coercions/deeper writes layered on top of it.  Evaluating the tree
reproduces the fold of `set_by_path` calls, and evaluation is stable on its
own output. -/

/-- `set_by_path` with the path already split into segments. -/
def setPathSegs (d : Val) (segs : List String) (v : Val) : Val :=
  match d with
  | .obj fs => .obj (setParts fs segs v)
  | d => d

/-- The validation performed on one op by `apply_patch_ops`, as data: the
segment list and value of a well-formed op, `none` for a skipped op. -/
def cleanOp (op : Val) : Option (List String × Val) :=
  match op with
  | .obj fs =>
      match assocGet fs "path" with
      | some (.str p) =>
          if pyStrip p ≠ "" then some (splitSegs (pyStrip p), (assocGet fs "value").getD .null)
          else none
      | _ => none
  | _ => none

/-- Folding `set_by_path` over cleaned ops. -/
def foldSet (d : Val) (l : List (List String × Val)) : Val :=
  l.foldl (fun d pv => setPathSegs d pv.1 pv.2) d

/-- Effect of an op list at one key: a last wholesale write (`lit`), or a
node that was coerced to a dict — starting from the underlying value when
`base` is `none`, from the literal fields `base = some gs` otherwise — with
the per-key effects `ch` applied on top. -/
inductive Eff where
  | lit (v : Val) : Eff
  | node (base : Option (List (String × Val))) (ch : List (String × Eff)) : Eff

/-- Key lookup in an effect children list. -/
def assocGetE : List (String × Eff) → String → Option Eff
  | [], _ => none
  | (k', e) :: rest, k => if k' = k then some e else assocGetE rest k

/-- Key update in an effect children list (in place, else appended). -/
def assocSetE : List (String × Eff) → String → Eff → List (String × Eff)
  | [], k, e => [(k, e)]
  | (k', e') :: rest, k, e =>
      if k' = k then (k, e) :: rest else (k', e') :: assocSetE rest k e

/-- Does a children list carry the key? -/
def hasKeyE : List (String × Eff) → String → Bool
  | [], _ => false
  | (k', _) :: rest, k => k' = k || hasKeyE rest k

mutual

/-- Well-formed effect: children keys are unique at every level. -/
def wfE : Eff → Bool
  | .lit _ => true
  | .node _ ch => wfF ch

/-- Well-formed children list. -/
def wfF : List (String × Eff) → Bool
  | [] => true
  | (k, e) :: rest => !hasKeyE rest k && (wfE e && wfF rest)

end

/-- The fields a coerced node starts from: the underlying value's fields when
it is a dict (else none), or the recorded literal fields. -/
def startFields : Option (List (String × Val)) → Option Val → List (String × Val)
  | none, some (.obj fs) => fs
  | none, _ => []
  | some gs, _ => gs

/-- The fields `set_by_path` descends into at a child value. -/
def valCoerceFields : Option Val → List (String × Val)
  | some (.obj gs) => gs
  | _ => []

mutual

/-- Evaluate an effect against the underlying value at its location. -/
def evalE : Eff → Option Val → Val
  | .lit v, _ => v
  | .node b ch, u => .obj (evalFs ch (startFields b u))

/-- Apply per-key effects to a field list, left to right. -/
def evalFs : List (String × Eff) → List (String × Val) → List (String × Val)
  | [], fs => fs
  | (k, e) :: rest, fs => evalFs rest (assocSet fs k (evalE e (assocGet fs k)))

end

/-- Coercion of an effect to a dict node, mirroring the intermediate-segment
step of `set_by_path`: an untouched child starts from the underlying value,
a literal dict keeps its fields, a literal non-dict is reset, a node is
already a dict. -/
def coerceE : Option Eff → Eff
  | none => .node none []
  | some (.lit (.obj gs)) => .node (some gs) []
  | some (.lit _) => .node (some []) []
  | some (.node b ch) => .node b ch

/-- Compose one `set_by_path` whose first segment was already resolved. -/
def compSet : Eff → List String → Val → Eff
  | .node b ch, [k], v => .node b (assocSetE ch k (.lit v))
  | .node b ch, k :: rest, v =>
      .node b (assocSetE ch k (compSet (coerceE (assocGetE ch k)) rest v))
  | e, _, _ => e

/-- Compose one `set_by_path` into the root children list. -/
def compRoot (ch : List (String × Eff)) : List String → Val → List (String × Eff)
  | [], _ => ch
  | [k], v => assocSetE ch k (.lit v)
  | k :: rest, v => assocSetE ch k (compSet (coerceE (assocGetE ch k)) rest v)

/-- The effect of a whole cleaned op list. -/
def buildEff (l : List (List String × Val)) : List (String × Eff) :=
  l.foldl (fun ch pv => compRoot ch pv.1 pv.2) []

/-- Evaluate a root effect on a document (a non-dict root is untouched, as in
`set_by_path`). -/
def evalRoot (ch : List (String × Eff)) (d : Val) : Val :=
  match d with
  | .obj fs => .obj (evalFs ch fs)
  | d => d

/-- Field lists that are equal except possibly for the value at the first
occurrence of the key `k`: equal entries before it, an arbitrary value
difference there, and equal tails after it. -/
def agreeX (k : String) : List (String × Val) → List (String × Val) → Prop
  | [], [] => True
  | (k1, v1) :: r1, (k2, v2) :: r2 =>
      k1 = k2 ∧ ((k1 = k ∧ r1 = r2) ∨ (k1 ≠ k ∧ v1 = v2 ∧ agreeX k r1 r2))
  | _, _ => False

/-! ## Helper lemmas -/

theorem dropWhile_eq_self_of_forall {p : Char → Bool} :
    ∀ l : List Char, (∀ c ∈ l, p c = false) → l.dropWhile p = l
  | [], _ => rfl
  | c :: rest, h => by
      simp [List.dropWhile_cons, h c (List.mem_cons_self c rest)]

theorem stripList_eq_self {cs : List Char} (h : ∀ c ∈ cs, c.isWhitespace = false) :
    stripList cs = cs := by
  unfold stripList
  rw [dropWhile_eq_self_of_forall cs h]
  rw [dropWhile_eq_self_of_forall cs.reverse (fun c hc => h c (List.mem_reverse.mp hc))]
  exact List.reverse_reverse cs

theorem isDigit_not_ws (c : Char) (h : c.isDigit = true) : c.isWhitespace = false := by
  have h1 : c ≠ ' ' := fun e => by rw [e] at h; exact absurd h (by decide)
  have h2 : c ≠ '\t' := fun e => by rw [e] at h; exact absurd h (by decide)
  have h3 : c ≠ '\r' := fun e => by rw [e] at h; exact absurd h (by decide)
  have h4 : c ≠ '\n' := fun e => by rw [e] at h; exact absurd h (by decide)
  simp [Char.isWhitespace, h1, h2, h3, h4]

theorem isoShape_all_not_ws : ∀ {cs : List Char}, isoShape cs = true →
    ∀ c ∈ cs, c.isWhitespace = false := by
  intro cs h c hc
  match cs, h, hc with
  | [y1, y2, y3, y4, k1, m1, m2, k2, d1, d2], h, hc =>
    simp only [isoShape, Bool.and_eq_true, decide_eq_true_eq] at h
    simp only [List.mem_cons, List.not_mem_nil, or_false] at hc
    rcases hc with rfl | rfl | rfl | rfl | rfl | rfl | rfl | rfl | rfl | rfl
    · exact isDigit_not_ws _ (by tauto)
    · exact isDigit_not_ws _ (by tauto)
    · exact isDigit_not_ws _ (by tauto)
    · exact isDigit_not_ws _ (by tauto)
    · have hd : c = '-' := by tauto
      rw [hd]; decide
    · exact isDigit_not_ws _ (by tauto)
    · exact isDigit_not_ws _ (by tauto)
    · have hd : c = '-' := by tauto
      rw [hd]; decide
    · exact isDigit_not_ws _ (by tauto)
    · exact isDigit_not_ws _ (by tauto)

theorem pyStrip_eq_self {s : String} (h : ∀ c ∈ s.data, c.isWhitespace = false) :
    pyStrip s = s := by
  unfold pyStrip
  rw [stripList_eq_self h]

theorem splitDotsL_ne_nil : ∀ cs : List Char, splitDotsL cs ≠ []
  | [] => by simp [splitDotsL]
  | c :: rest => by
      by_cases hc : c = '.'
      · simp [splitDotsL, hc]
      · obtain ⟨seg, segs, heq⟩ := List.exists_cons_of_ne_nil (splitDotsL_ne_nil rest)
        simp [splitDotsL, hc, heq]

theorem all_dots_of_segs_nil :
    ∀ cs : List Char, (splitDotsL cs).filter (fun l => !l.isEmpty) = [] → ∀ c ∈ cs, c = '.'
  | [], _, c, hc => absurd hc (List.not_mem_nil c)
  | c :: rest, h, d, hd => by
      by_cases hc : c = '.'
      · simp only [splitDotsL, hc, if_true] at h
        rw [List.filter_cons] at h
        simp only [List.isEmpty_nil, Bool.not_true, if_neg] at h
        rcases List.mem_cons.mp hd with h1 | h1
        · rw [h1]; exact hc
        · exact all_dots_of_segs_nil rest h d h1
      · exfalso
        obtain ⟨seg, segs, heq⟩ := List.exists_cons_of_ne_nil (splitDotsL_ne_nil rest)
        simp [splitDotsL, hc, heq, List.filter_cons] at h

theorem splitSegs_strip_nil {p : String} (h : splitSegs p = []) : splitSegs (pyStrip p) = [] := by
  have hfil : (splitDotsL p.data).filter (fun l => !l.isEmpty) = [] := by
    unfold splitSegs at h
    exact List.map_eq_nil_iff.mp h
  have hdots := all_dots_of_segs_nil p.data hfil
  have hstrip : stripList p.data = p.data := by
    refine stripList_eq_self fun c hc => ?_
    rw [hdots c hc]; decide
  unfold splitSegs pyStrip
  show ((splitDotsL (stripList p.data)).filter _).map _ = []
  rw [hstrip, hfil, List.map_nil]

theorem setByPath_of_segs_nil {d : Val} {path : String} {v : Val}
    (h : splitSegs path = []) : setByPath d path v = d := by
  cases d <;> simp [setByPath, h, setParts]

theorem patchStep_skip {d op : Val} (h : isMalformedOp op = true) : patchStep d op = d := by
  cases op with
  | obj fs =>
      cases hp : assocGet fs "path" with
      | none => simp [patchStep, hp]
      | some v =>
          cases v with
          | str p =>
              simp only [isMalformedOp, hp] at h
              have hsegs : splitSegs p = [] := List.isEmpty_iff.mp h
              simp only [patchStep, hp]
              by_cases hs : pyStrip p = ""
              · rw [if_neg (not_not_intro hs)]
              · rw [if_pos hs]
                exact setByPath_of_segs_nil (splitSegs_strip_nil hsegs)
          | null => simp [patchStep, hp]
          | bool b => simp [patchStep, hp]
          | num q => simp [patchStep, hp]
          | list l => simp [patchStep, hp]
          | obj gs => simp [patchStep, hp]
  | null => rfl
  | bool b => rfl
  | num q => rfl
  | str s => rfl
  | list l => rfl

theorem isAnsweredAny_iff :
    ∀ fs : List (String × Val), isAnsweredAny fs = true ↔ ∃ kv ∈ fs, isAnswered kv.2 = true
  | [] => by simp [isAnsweredAny]
  | (k, v) :: rest => by
      rw [isAnsweredAny, Bool.or_eq_true, isAnsweredAny_iff rest]
      constructor
      · rintro (h | ⟨kv, hmem, hkv⟩)
        · exact ⟨(k, v), List.mem_cons_self _ _, h⟩
        · exact ⟨kv, List.mem_cons_of_mem _ hmem, hkv⟩
      · rintro ⟨kv, hmem, hkv⟩
        rcases List.mem_cons.mp hmem with h1 | h1
        · subst h1; exact Or.inl hkv
        · exact Or.inr ⟨kv, h1, hkv⟩

theorem unfilledDeepLoop_eq_filter (profile : Val) (askedSet : List String) :
    ∀ l : List String,
      unfilledDeepLoop profile askedSet l
        = l.filter (fun p => !askedSet.contains p && !isAnswered (getByPath profile p))
  | [] => rfl
  | p :: rest => by
      rw [unfilledDeepLoop, List.filter_cons, unfilledDeepLoop_eq_filter profile askedSet rest]
      by_cases h1 : p ∈ askedSet
      · simp [h1]
      · by_cases h2 : isAnswered (getByPath profile p)
        · simp [h1, h2]
        · simp [h1, h2]

theorem nextGatingFrom_eq_find (profile : Val) :
    ∀ l : List Val, nextGatingFrom profile l = (l.find? (gatingElig profile)).map stripDependsOn
  | [] => rfl
  | q :: rest => by
      have ih := nextGatingFrom_eq_find profile rest
      by_cases hdep : (pyGet q "depends_on").truthy = true <;>
        by_cases heq : getByPath profile (strField (pyGet q "depends_on") "path")
            = pyGet (pyGet q "depends_on") "equals" <;>
        by_cases hset : isSet (getByPath profile (strField q "id")) = true <;>
        simp [nextGatingFrom, gatingElig, List.find?_cons, hdep, heq, hset, ih,
          Bool.not_eq_true]

theorem verifyLink_eq_true {probe : String → Bool} {url : String}
    (h : verifyLink probe url = true) :
    (strStartsWith url "http://" || strStartsWith url "https://") = true ∧ probe url = true := by
  by_cases h1 : url = ""
  · simp [verifyLink, h1] at h
  · cases hb : (strStartsWith url "http://" || strStartsWith url "https://") with
    | true =>
        simp [verifyLink, h1, hb] at h
        exact ⟨rfl, h⟩
    | false => simp [verifyLink, h1, hb] at h

theorem loadStudentContextFrom_ok (stores : String → StoreState) (clientId : String) :
    ∀ l : List String, (∀ f ∈ l, storeWellFormed (stores f) = true) →
      loadStudentContextFrom stores clientId l
        = .ok (l.map (contextSpecEntry stores clientId))
  | [], _ => rfl
  | f :: rest, h => by
      have ih := loadStudentContextFrom_ok stores clientId rest
        (fun g hg => h g (List.mem_cons_of_mem f hg))
      have hf := h f (List.mem_cons_self f rest)
      cases hs : stores f with
      | missing => simp [loadStudentContextFrom, List.map_cons, contextSpecEntry, hs, ih, Except.map]
      | badJson => simp [loadStudentContextFrom, List.map_cons, contextSpecEntry, hs, ih, Except.map]
      | parsed v =>
          rw [hs] at hf
          cases v with
          | obj fs => simp [loadStudentContextFrom, List.map_cons, contextSpecEntry, hs, ih, Except.map]
          | null => exact absurd hf (by simp [storeWellFormed, Val.isObj])
          | bool b => exact absurd hf (by simp [storeWellFormed, Val.isObj])
          | num q => exact absurd hf (by simp [storeWellFormed, Val.isObj])
          | str s => exact absurd hf (by simp [storeWellFormed, Val.isObj])
          | list l2 => exact absurd hf (by simp [storeWellFormed, Val.isObj])

theorem assocGet_assocSet (k k' : String) (v : Val) :
    ∀ fs : List (String × Val),
      assocGet (assocSet fs k v) k' = if k' = k then some v else assocGet fs k'
  | [] => by
      by_cases h : k' = k
      · simp [assocSet, assocGet, h]
      · simp [assocSet, assocGet, h, Ne.symm h]
  | (k0, v0) :: rest => by
      by_cases h0 : k0 = k
      · subst h0
        by_cases h : k' = k0
        · simp [assocSet, assocGet, h]
        · simp [assocSet, assocGet, h, Ne.symm h]
      · by_cases h : k' = k0
        · subst h
          simp [assocSet, assocGet, h0, Ne.symm h0]
        · simp [assocSet, assocGet, h0, Ne.symm h, h, assocGet_assocSet k k' v rest]

theorem assocSet_assocSet_self (k : String) (x y : Val) :
    ∀ fs : List (String × Val), assocSet (assocSet fs k x) k y = assocSet fs k y
  | [] => by simp [assocSet]
  | (k0, v0) :: rest => by
      by_cases h0 : k0 = k
      · simp [assocSet, h0]
      · simp [assocSet, h0, assocSet_assocSet_self k x y rest]

theorem assocSet_get_self (k : String) (x : Val) :
    ∀ fs : List (String × Val), assocGet fs k = some x → assocSet fs k x = fs
  | [], h => by simp [assocGet] at h
  | (k0, v0) :: rest, h => by
      by_cases h0 : k0 = k
      · subst h0
        simp [assocGet] at h
        simp [assocSet, h]
      · simp [assocGet, h0] at h
        simp [assocSet, h0, assocSet_get_self k x rest h]

theorem assocGetE_assocSetE (k k' : String) (e : Eff) :
    ∀ ch : List (String × Eff),
      assocGetE (assocSetE ch k e) k' = if k' = k then some e else assocGetE ch k'
  | [] => by
      by_cases h : k' = k
      · simp [assocSetE, assocGetE, h]
      · simp [assocSetE, assocGetE, h, Ne.symm h]
  | (k0, e0) :: rest => by
      by_cases h0 : k0 = k
      · subst h0
        by_cases h : k' = k0
        · simp [assocSetE, assocGetE, h]
        · simp [assocSetE, assocGetE, h, Ne.symm h]
      · by_cases h : k' = k0
        · subst h
          simp [assocSetE, assocGetE, h0, Ne.symm h0]
        · simp [assocSetE, assocGetE, h0, Ne.symm h, h, assocGetE_assocSetE k k' e rest]

theorem hasKeyE_assocSetE (k k' : String) (e : Eff) :
    ∀ ch : List (String × Eff),
      hasKeyE (assocSetE ch k e) k' = (hasKeyE ch k' || decide (k = k'))
  | [] => by simp [assocSetE, hasKeyE]
  | (k0, e0) :: rest => by
      by_cases h0 : k0 = k
      · subst h0
        by_cases h : k0 = k' <;> simp [assocSetE, hasKeyE, h]
      · simp [assocSetE, hasKeyE, h0, hasKeyE_assocSetE k k' e rest, Bool.or_assoc]

theorem wfE_of_getE {k : String} {e : Eff} :
    ∀ {ch : List (String × Eff)}, wfF ch = true → assocGetE ch k = some e → wfE e = true
  | [], _, h => by simp [assocGetE] at h
  | (k0, e0) :: rest, hwf, h => by
      simp only [wfF, Bool.and_eq_true] at hwf
      by_cases h0 : k0 = k
      · simp [assocGetE, h0] at h
        rw [← h]
        exact hwf.2.1
      · simp [assocGetE, h0] at h
        exact wfE_of_getE hwf.2.2 h

theorem wfF_assocSetE {k : String} {e : Eff} :
    ∀ {ch : List (String × Eff)}, wfF ch = true → wfE e = true → wfF (assocSetE ch k e) = true
  | [], _, he => by simp [assocSetE, wfF, hasKeyE, he]
  | (k0, e0) :: rest, hwf, he => by
      simp only [wfF, Bool.and_eq_true] at hwf
      by_cases h0 : k0 = k
      · subst h0
        simp [assocSetE, wfF, he, hwf.1, hwf.2.2]
      · simp only [assocSetE, if_neg h0]
        simp only [wfF, Bool.and_eq_true]
        refine ⟨?_, hwf.2.1, wfF_assocSetE hwf.2.2 he⟩
        have h1 : hasKeyE rest k0 = false := by
          have h2 := hwf.1
          rwa [Bool.not_eq_true'] at h2
        rw [hasKeyE_assocSetE, h1]
        simp [Ne.symm h0]

theorem agreeX_refl (k : String) : ∀ g, agreeX k g g
  | [] => trivial
  | (k1, v1) :: r => by
      by_cases h : k1 = k
      · exact ⟨rfl, Or.inl ⟨h, rfl⟩⟩
      · exact ⟨rfl, Or.inr ⟨h, rfl, agreeX_refl k r⟩⟩

theorem agreeX_set (k : String) (x y : Val) :
    ∀ g, agreeX k (assocSet g k x) (assocSet g k y)
  | [] => ⟨rfl, Or.inl ⟨rfl, rfl⟩⟩
  | (k0, v0) :: r => by
      by_cases h : k0 = k
      · subst h
        simp only [assocSet, if_pos rfl]
        exact ⟨rfl, Or.inl ⟨rfl, rfl⟩⟩
      · simp only [assocSet, if_neg h]
        exact ⟨rfl, Or.inr ⟨h, rfl, agreeX_set k x y r⟩⟩

theorem agreeX_get_ne {k k1 : String} (hne : k1 ≠ k) :
    ∀ {g g' : List (String × Val)}, agreeX k g g' → assocGet g k1 = assocGet g' k1
  | [], [], _ => rfl
  | (ka, va) :: r1, (kb, vb) :: r2, h => by
      obtain ⟨hk, hrest⟩ := h
      subst hk
      rcases hrest with ⟨hka, hr⟩ | ⟨hka, hv, hrec⟩
      · subst hr
        by_cases hq : ka = k1
        · exact absurd (hq.symm.trans hka) hne
        · simp [assocGet, hq]
      · by_cases hq : ka = k1
        · simp [assocGet, hq, hv]
        · simp only [assocGet, if_neg hq]
          exact agreeX_get_ne hne hrec
  | [], (_, _) :: _, h => h.elim
  | (_, _) :: _, [], h => h.elim

theorem agreeX_set_ne {k k1 : String} (hne : k1 ≠ k) (y : Val) :
    ∀ {g g' : List (String × Val)}, agreeX k g g' →
      agreeX k (assocSet g k1 y) (assocSet g' k1 y)
  | [], [], _ => ⟨rfl, Or.inr ⟨hne, rfl, trivial⟩⟩
  | (ka, va) :: r1, (kb, vb) :: r2, h => by
      obtain ⟨hk, hrest⟩ := h
      subst hk
      rcases hrest with ⟨hka, hr⟩ | ⟨hka, hv, hrec⟩
      · subst hr
        by_cases hq : ka = k1
        · exact absurd (hq.symm.trans hka) hne
        · simp only [assocSet, if_neg hq]
          exact ⟨rfl, Or.inl ⟨hka, rfl⟩⟩
      · by_cases hq : ka = k1
        · subst hq
          simp only [assocSet, if_pos rfl]
          exact ⟨rfl, Or.inr ⟨hka, rfl, hrec⟩⟩
        · simp only [assocSet, if_neg hq]
          exact ⟨rfl, Or.inr ⟨hka, hv, agreeX_set_ne hne y hrec⟩⟩
  | [], (_, _) :: _, h => h.elim
  | (_, _) :: _, [], h => h.elim

theorem agreeX_set_eq {k : String} (x : Val) :
    ∀ {g g' : List (String × Val)}, agreeX k g g' → assocSet g k x = assocSet g' k x
  | [], [], _ => rfl
  | (ka, va) :: r1, (kb, vb) :: r2, h => by
      obtain ⟨hk, hrest⟩ := h
      subst hk
      rcases hrest with ⟨hka, hr⟩ | ⟨hka, hv, hrec⟩
      · subst hr
        simp [assocSet, hka]
      · subst hv
        simp [assocSet, hka, agreeX_set_eq x hrec]
  | [], (_, _) :: _, h => h.elim
  | (_, _) :: _, [], h => h.elim

theorem assocGet_evalFs_notin {k : String} :
    ∀ {ch : List (String × Eff)}, hasKeyE ch k = false →
      ∀ fs, assocGet (evalFs ch fs) k = assocGet fs k
  | [], _, fs => rfl
  | (k1, e1) :: rest, h, fs => by
      simp only [hasKeyE, Bool.or_eq_false_iff, decide_eq_false_iff_not] at h
      have hne : ¬k = k1 := fun hc => h.1 (Eq.symm hc)
      simp only [evalFs]
      rw [assocGet_evalFs_notin h.2, assocGet_assocSet, if_neg hne]

theorem assocGet_evalFs_mem {k : String} {e : Eff} :
    ∀ {ch : List (String × Eff)}, wfF ch = true → assocGetE ch k = some e →
      ∀ fs, assocGet (evalFs ch fs) k = some (evalE e (assocGet fs k))
  | [], _, h, _ => by simp [assocGetE] at h
  | (k1, e1) :: rest, hwf, h, fs => by
      simp only [wfF, Bool.and_eq_true] at hwf
      by_cases h0 : k1 = k
      · subst h0
        simp [assocGetE] at h
        subst h
        simp only [evalFs]
        have hk : hasKeyE rest k1 = false := by
          have h9 := hwf.1
          rwa [Bool.not_eq_true'] at h9
        rw [assocGet_evalFs_notin hk, assocGet_assocSet]
        simp
      · simp only [assocGetE, if_neg h0] at h
        have hne : ¬k = k1 := fun hc => h0 (Eq.symm hc)
        simp only [evalFs]
        rw [assocGet_evalFs_mem hwf.2.2 h, assocGet_assocSet, if_neg hne]

theorem agreeX_evalFs {k : String} :
    ∀ {rest : List (String × Eff)}, hasKeyE rest k = false →
      ∀ {a b : List (String × Val)}, agreeX k a b →
        agreeX k (evalFs rest a) (evalFs rest b)
  | [], _, a, b, h => h
  | (k1, e1) :: r1, hk, a, b, h => by
      simp only [hasKeyE, Bool.or_eq_false_iff, decide_eq_false_iff_not] at hk
      have h1 : k1 ≠ k := hk.1
      simp only [evalFs]
      refine agreeX_evalFs hk.2 ?_
      rw [agreeX_get_ne h1 h]
      exact agreeX_set_ne h1 _ h

theorem evalFs_value_irrel {k : String} (x0 x1 : Val)
    {rest : List (String × Eff)} (h : hasKeyE rest k = false) (g : List (String × Val)) :
    evalFs rest (assocSet g k x1) = assocSet (evalFs rest (assocSet g k x0)) k x1 := by
  have hag : agreeX k (assocSet g k x1) (assocSet g k x0) := agreeX_set k x1 x0 g
  have hag2 : agreeX k (evalFs rest (assocSet g k x1)) (evalFs rest (assocSet g k x0)) :=
    agreeX_evalFs h hag
  have hget : assocGet (evalFs rest (assocSet g k x1)) k = some x1 := by
    rw [assocGet_evalFs_notin h, assocGet_assocSet]
    simp
  calc evalFs rest (assocSet g k x1)
      = assocSet (evalFs rest (assocSet g k x1)) k x1 :=
        (assocSet_get_self _ _ _ hget).symm
    _ = assocSet (evalFs rest (assocSet g k x0)) k x1 := agreeX_set_eq x1 hag2

theorem evalFs_assocSetE {k : String} {e' : Eff} :
    ∀ {ch : List (String × Eff)}, wfF ch = true →
      ∀ fs, evalFs (assocSetE ch k e') fs
        = assocSet (evalFs ch fs) k (evalE e' (assocGet fs k))
  | [], _, fs => by simp [assocSetE, evalFs]
  | (k0, e0) :: rest, hwf, fs => by
      simp only [wfF, Bool.and_eq_true] at hwf
      by_cases h0 : k0 = k
      · subst h0
        simp only [assocSetE, if_pos rfl]
        simp only [evalFs]
        have hk : hasKeyE rest k0 = false := by
          have h9 := hwf.1
          rwa [Bool.not_eq_true'] at h9
        exact evalFs_value_irrel (evalE e0 (assocGet fs k0)) (evalE e' (assocGet fs k0)) hk fs
      · simp only [assocSetE, if_neg h0]
        have hne : ¬k = k0 := fun hc => h0 (Eq.symm hc)
        simp only [evalFs]
        rw [evalFs_assocSetE hwf.2.2, assocGet_assocSet, if_neg hne]

theorem startFields_none : ∀ u : Option Val, startFields none u = valCoerceFields u
  | none => rfl
  | some v => by cases v <;> rfl

theorem compSet_node (b : Option (List (String × Val))) (ch : List (String × Eff))
    (segs : List String) (v : Val) (h : segs ≠ []) :
    compSet (.node b ch) segs v = .node b (compRoot ch segs v) := by
  match segs with
  | [] => exact absurd rfl h
  | [k] => rfl
  | k :: k2 :: rest => rfl

theorem coerceE_is_node : ∀ oe : Option Eff, ∃ b ch, coerceE oe = .node b ch
  | none => ⟨none, [], rfl⟩
  | some (.lit v) => by cases v <;> exact ⟨_, _, rfl⟩
  | some (.node b ch) => ⟨b, ch, rfl⟩

/-- Well-formedness of an optional child effect. -/
def wfO : Option Eff → Bool
  | none => true
  | some e => wfE e

theorem wfE_coerceE : ∀ {oe : Option Eff}, wfO oe = true → wfE (coerceE oe) = true
  | none, _ => rfl
  | some (.lit v), _ => by cases v <;> rfl
  | some (.node b ch), h => h

theorem wfO_getE {k : String} :
    ∀ {ch : List (String × Eff)}, wfF ch = true → wfO (assocGetE ch k) = true := by
  intro ch h
  cases hget : assocGetE ch k with
  | none => rfl
  | some e => exact wfE_of_getE h hget

theorem getE_none_not_hasKey {k : String} :
    ∀ {ch : List (String × Eff)}, assocGetE ch k = none → hasKeyE ch k = false
  | [], _ => rfl
  | (k1, e1) :: rest, h => by
      by_cases h0 : k1 = k
      · simp [assocGetE, h0] at h
      · simp only [assocGetE, if_neg h0] at h
        simp [hasKeyE, h0, getE_none_not_hasKey h]

theorem evalE_coerceE_none (u : Option Val) :
    evalE (coerceE none) u = .obj (valCoerceFields u) := by
  show Val.obj (evalFs [] (startFields none u)) = .obj (valCoerceFields u)
  rw [startFields_none]
  rfl

theorem evalE_coerceE_some (e0 : Eff) (u : Option Val) :
    evalE (coerceE (some e0)) u = .obj (valCoerceFields (some (evalE e0 u))) := by
  cases e0 with
  | lit v => cases v <;> rfl
  | node b ch => rfl

theorem wf_compRoot : ∀ (segs : List String) (v : Val) (ch : List (String × Eff)),
    wfF ch = true → wfF (compRoot ch segs v) = true
  | [], _, _, h => h
  | [k], v, ch, h => wfF_assocSetE h rfl
  | k :: k2 :: rest, v, ch, h => by
      apply wfF_assocSetE h
      obtain ⟨b2, ch2, heq⟩ := coerceE_is_node (assocGetE ch k)
      have h1 : wfE (coerceE (assocGetE ch k)) = true := wfE_coerceE (wfO_getE h)
      rw [heq] at h1 ⊢
      rw [compSet_node b2 ch2 (k2 :: rest) v (by simp)]
      show wfF (compRoot ch2 (k2 :: rest) v) = true
      exact wf_compRoot (k2 :: rest) v ch2 h1

theorem setParts_cons (fs : List (String × Val)) (k k2 : String) (rest : List String)
    (v : Val) :
    setParts fs (k :: k2 :: rest) v
      = assocSet fs k (.obj (setParts (valCoerceFields (assocGet fs k)) (k2 :: rest) v)) := by
  cases hget : assocGet fs k with
  | none => simp [setParts, hget, valCoerceFields]
  | some v0 => cases v0 <;> simp [setParts, hget, valCoerceFields]

theorem evalFs_compRoot : ∀ (segs : List String) (v : Val) (ch : List (String × Eff))
    (fs : List (String × Val)), wfF ch = true →
    evalFs (compRoot ch segs v) fs = setParts (evalFs ch fs) segs v
  | [], _, _, _, _ => rfl
  | [k], v, ch, fs, h => by
      show evalFs (assocSetE ch k (.lit v)) fs = setParts (evalFs ch fs) [k] v
      rw [evalFs_assocSetE h]
      rfl
  | k :: k2 :: rest, v, ch, fs, h => by
      show evalFs (assocSetE ch k (compSet (coerceE (assocGetE ch k)) (k2 :: rest) v)) fs
        = setParts (evalFs ch fs) (k :: k2 :: rest) v
      rw [evalFs_assocSetE h, setParts_cons]
      congr 1
      cases hget : assocGetE ch k with
      | none =>
          rw [assocGet_evalFs_notin (getE_none_not_hasKey hget)]
          rw [show coerceE none = Eff.node none [] from rfl,
            compSet_node none [] (k2 :: rest) v (by simp)]
          show Val.obj (evalFs (compRoot [] (k2 :: rest) v)
              (startFields none (assocGet fs k))) = _
          rw [evalFs_compRoot (k2 :: rest) v [] _ rfl, startFields_none]
          rfl
      | some e0 =>
          rw [assocGet_evalFs_mem h hget]
          obtain ⟨b2, ch2, heq⟩ := coerceE_is_node (some e0)
          have hwf2 : wfF ch2 = true := by
            have h1 : wfE (coerceE (some e0)) = true := wfE_coerceE (wfE_of_getE h hget)
            rw [heq] at h1
            exact h1
          have hfields : evalFs ch2 (startFields b2 (assocGet fs k))
              = valCoerceFields (some (evalE e0 (assocGet fs k))) := by
            have h2 := evalE_coerceE_some e0 (assocGet fs k)
            rw [heq] at h2
            exact Val.obj.inj h2
          rw [heq, compSet_node b2 ch2 (k2 :: rest) v (by simp)]
          show Val.obj (evalFs (compRoot ch2 (k2 :: rest) v)
              (startFields b2 (assocGet fs k))) = _
          rw [evalFs_compRoot (k2 :: rest) v ch2 _ hwf2, hfields]

theorem evalRoot_compRoot (segs : List String) (v : Val) (ch : List (String × Eff))
    (d : Val) (h : wfF ch = true) :
    evalRoot (compRoot ch segs v) d = setPathSegs (evalRoot ch d) segs v := by
  cases d with
  | obj fs =>
      show Val.obj (evalFs (compRoot ch segs v) fs)
        = setPathSegs (.obj (evalFs ch fs)) segs v
      rw [evalFs_compRoot segs v ch fs h]
      rfl
  | null => rfl
  | bool b => rfl
  | num q => rfl
  | str s => rfl
  | list l => rfl

theorem wf_foldBuild : ∀ (l : List (List String × Val)) (ch : List (String × Eff)),
    wfF ch = true →
    wfF (l.foldl (fun ch pv => compRoot ch pv.1 pv.2) ch) = true
  | [], _, h => h
  | pv :: rest, ch, h => wf_foldBuild rest _ (wf_compRoot pv.1 pv.2 ch h)

theorem evalRoot_foldBuild : ∀ (l : List (List String × Val)) (ch : List (String × Eff))
    (d : Val), wfF ch = true →
    evalRoot (l.foldl (fun ch pv => compRoot ch pv.1 pv.2) ch) d
      = foldSet (evalRoot ch d) l
  | [], _, _, _ => rfl
  | pv :: rest, ch, d, h => by
      show evalRoot (rest.foldl _ (compRoot ch pv.1 pv.2)) d = foldSet (evalRoot ch d) (pv :: rest)
      rw [evalRoot_foldBuild rest _ d (wf_compRoot pv.1 pv.2 ch h)]
      rw [evalRoot_compRoot pv.1 pv.2 ch d h]
      rfl

mutual

theorem evalE_stable : ∀ (e : Eff), wfE e = true → ∀ u, evalE e (some (evalE e u)) = evalE e u
  | .lit v, _, u => rfl
  | .node none ch, h, u => by
      show Val.obj (evalFs ch (startFields none (some (.obj (evalFs ch (startFields none u))))))
        = .obj (evalFs ch (startFields none u))
      rw [show startFields none (some (Val.obj (evalFs ch (startFields none u))))
          = evalFs ch (startFields none u) from rfl]
      rw [evalFs_stable ch h]
  | .node (some gs) ch, h, u => rfl

theorem evalFs_stable : ∀ (ch : List (String × Eff)), wfF ch = true →
    ∀ fs, evalFs ch (evalFs ch fs) = evalFs ch fs
  | [], _, _ => rfl
  | (k, e) :: rest, h, fs => by
      simp only [wfF, Bool.and_eq_true] at h
      have hk : hasKeyE rest k = false := by
        have h9 := h.1
        rwa [Bool.not_eq_true'] at h9
      simp only [evalFs]
      have hgetA : assocGet (evalFs rest (assocSet fs k (evalE e (assocGet fs k)))) k
          = some (evalE e (assocGet fs k)) := by
        rw [assocGet_evalFs_notin hk, assocGet_assocSet]
        simp
      rw [hgetA, evalE_stable e h.2.1, assocSet_get_self _ _ _ hgetA]
      exact evalFs_stable rest h.2.2 (assocSet fs k (evalE e (assocGet fs k)))

end

theorem evalRoot_nil : ∀ d : Val, evalRoot [] d = d
  | .obj _ => rfl
  | .null => rfl
  | .bool _ => rfl
  | .num _ => rfl
  | .str _ => rfl
  | .list _ => rfl

theorem evalRoot_stable (E : List (String × Eff)) (d : Val) (h : wfF E = true) :
    evalRoot E (evalRoot E d) = evalRoot E d := by
  cases d with
  | obj fs =>
      show evalRoot E (.obj (evalFs E fs)) = Val.obj (evalFs E fs)
      show Val.obj (evalFs E (evalFs E fs)) = Val.obj (evalFs E fs)
      rw [evalFs_stable E h]
  | null => rfl
  | bool b => rfl
  | num q => rfl
  | str s => rfl
  | list l => rfl

theorem foldSet_eq_evalRoot (l : List (List String × Val)) (d : Val) :
    foldSet d l = evalRoot (buildEff l) d := by
  have h := evalRoot_foldBuild l [] d rfl
  rw [evalRoot_nil] at h
  exact h.symm

theorem foldSet_idem (l : List (List String × Val)) (d : Val) :
    foldSet (foldSet d l) l = foldSet d l := by
  have hwf : wfF (buildEff l) = true := wf_foldBuild l [] rfl
  simp only [foldSet_eq_evalRoot]
  exact evalRoot_stable _ _ hwf

theorem setByPath_eq_setPathSegs (d : Val) (p : String) (v : Val) :
    setByPath d p v = setPathSegs d (splitSegs p) v := by
  cases d <;> rfl

theorem patchStep_eq_cleanOp (d op : Val) :
    patchStep d op = (match cleanOp op with
      | some pv => setPathSegs d pv.1 pv.2
      | none => d) := by
  cases op with
  | obj fs =>
      cases hget : assocGet fs "path" with
      | none => simp [patchStep, cleanOp, hget]
      | some v =>
          cases v with
          | str p =>
              by_cases hp : pyStrip p = ""
              · simp [patchStep, cleanOp, hget, hp]
              · simp [patchStep, cleanOp, hget, hp, setByPath_eq_setPathSegs]
          | null => simp [patchStep, cleanOp, hget]
          | bool b => simp [patchStep, cleanOp, hget]
          | num q => simp [patchStep, cleanOp, hget]
          | list l => simp [patchStep, cleanOp, hget]
          | obj gs => simp [patchStep, cleanOp, hget]
  | null => rfl
  | bool b => rfl
  | num q => rfl
  | str s => rfl
  | list l => rfl

theorem applyPatchOps_eq_foldSet : ∀ (ops : List Val) (d : Val),
    applyPatchOps d ops = foldSet d (ops.filterMap cleanOp)
  | [], _ => rfl
  | op :: rest, d => by
      show applyPatchOps (patchStep d op) rest = foldSet d ((op :: rest).filterMap cleanOp)
      rw [applyPatchOps_eq_foldSet rest, patchStep_eq_cleanOp]
      cases h : cleanOp op with
      | none => simp [List.filterMap_cons, h]
      | some pv => simp [List.filterMap_cons, h, foldSet]

/-! ## Claims -/

/-- Claim C3 counterexample: the code counts the scalar `False` as answered
although it is not truthy, and counts the non-empty string `" "` as
unanswered.  Both contradict the claim's characterization. -/
theorem C3_counterexample :
    isAnswered (Val.bool false) = true ∧ isAnsweredClaim (Val.bool false) = false ∧
      isAnswered (Val.str " ") = false ∧ isAnsweredClaim (Val.str " ") = true := by
  decide

/-- Claim C3 (amended): `_is_answered(v)` is true iff `v` is non-null and is a
string that is non-empty after stripping whitespace, a non-empty list, a
mapping containing at least one answered value, or a scalar of any other
type (truthy or not). -/
theorem C3_answered_characterization (v : Val) :
    isAnswered v = true ↔
      v ≠ Val.null ∧
        ((∃ s, v = Val.str s ∧ stripList s.data ≠ []) ∨
         (∃ l, v = Val.list l ∧ l ≠ []) ∨
         (∃ fs, v = Val.obj fs ∧ ∃ kv ∈ fs, isAnswered kv.2 = true) ∨
         (∃ q, v = Val.num q) ∨ (∃ b, v = Val.bool b)) := by
  cases v with
  | null => simp [isAnswered]
  | str s => simp [isAnswered]
  | list l => simp [isAnswered]
  | obj fs => simp [isAnswered, isAnsweredAny_iff]
  | num q => simp [isAnswered]
  | bool b => simp [isAnswered]

/-- Witness for C3: `"Skip"` is answered, by the characterization. -/
theorem C3_witness : isAnswered (Val.str "Skip") = true :=
  (C3_answered_characterization (Val.str "Skip")).mpr
    ⟨by simp, Or.inl ⟨"Skip", rfl, by decide⟩⟩

/-- Claim C9: a malformed patch op — not a mapping, or `path` not a string,
or a path with no non-empty dot-segment — is silently skipped and leaves the
document unchanged.  (`apply_patch_ops` is a total function, so it cannot
raise.) -/
theorem C9_malformed_ops_skipped (d : Val) (pre post : List Val) (op : Val)
    (h : isMalformedOp op = true) :
    applyPatchOps d (pre ++ op :: post) = applyPatchOps d (pre ++ post) := by
  unfold applyPatchOps
  rw [List.foldl_append, List.foldl_append, List.foldl_cons, patchStep_skip h]

/-- Witness for C9 at a concrete malformed op (a bare string). -/
theorem C9_witness :
    isMalformedOp (Val.str "x") = true ∧
      applyPatchOps (Val.obj []) ([Val.obj [("path", Val.str "a"), ("value", Val.num 1)]]
          ++ Val.str "x" :: [Val.obj [("path", Val.str "b"), ("value", Val.num 2)]])
        = applyPatchOps (Val.obj []) ([Val.obj [("path", Val.str "a"), ("value", Val.num 1)]]
          ++ [Val.obj [("path", Val.str "b"), ("value", Val.num 2)]]) :=
  ⟨by decide, C9_malformed_ops_skipped (Val.obj [])
    [Val.obj [("path", Val.str "a"), ("value", Val.num 1)]]
    [Val.obj [("path", Val.str "b"), ("value", Val.num 2)]]
    (Val.str "x") (by decide)⟩

/-- Claim C2: in deep mode the unfilled list is exactly the order-preserving
sublist of `DEEP_PATHS_ORDER` of paths neither asked nor answered, and
`allow_finish` is false iff that list is non-empty; outside deep mode
`allow_finish` is always true; the priority list is exactly the unanswered
`PRIORITY_SLOTS`, ignoring the asked set. -/
theorem C2_slot_fill_tracking (profile : Val) :
    unfilledDeepPaths "deep" profile
        = DEEP_PATHS_ORDER.filter
            (fun p => !(computeAskedSet profile).contains p && !isAnswered (getByPath profile p))
      ∧ (unfilledDeepPaths "deep" profile).Sublist DEEP_PATHS_ORDER
      ∧ (allowFinish "deep" profile = false ↔ unfilledDeepPaths "deep" profile ≠ [])
      ∧ (∀ mode, mode ≠ "deep" → allowFinish mode profile = true)
      ∧ unfilledPriority profile
          = PRIORITY_SLOTS.filter (fun p => !isAnswered (getByPath profile p)) := by
  have hfil : unfilledDeepPaths "deep" profile
      = DEEP_PATHS_ORDER.filter
          (fun p => !(computeAskedSet profile).contains p && !isAnswered (getByPath profile p)) := by
    unfold unfilledDeepPaths
    rw [if_pos rfl]
    exact unfilledDeepLoop_eq_filter profile (computeAskedSet profile) DEEP_PATHS_ORDER
  refine ⟨hfil, ?_, ?_, ?_, rfl⟩
  · rw [hfil]; exact List.filter_sublist DEEP_PATHS_ORDER
  · unfold allowFinish
    by_cases h : unfilledDeepPaths "deep" profile = []
    · simp [h]
    · simp [h, List.isEmpty_iff]
  · intro mode hmode
    simp [allowFinish, hmode]

/-- Witness for C2: outside deep mode finishing is always allowed. -/
theorem C2_witness : allowFinish "core" (Val.obj []) = true :=
  (C2_slot_fill_tracking (Val.obj [])).2.2.2.1 "core" (by decide)

/-- Claim C1 (amended): in deep mode, when the first oracle response has
action FINISH and, after applying that response's profile patch and marking
the last question as asked, at least one deep path remains neither answered
nor asked, exactly one additional oracle call is made, its forced directive
names the first remaining path, the second response's patch is applied, and
the second response is what the caller receives — accepted as final whether
or not it complies, with no further retry. -/
theorem C1_forced_continuation (profile : Val) (lastA lastQ : Option String)
    (resp1 resp2 : Val) (forced : String) (rest : List String)
    (hact : pyGet resp1 "action" = Val.str "FINISH")
    (hrem : deepRemaining (markAsked (applyRespPatch profile resp1) lastQ lastA) = forced :: rest) :
    intakeNextTurn "deep" profile lastA lastQ resp1 resp2 =
      ⟨resp2, applyRespPatch (markAsked (applyRespPatch profile resp1) lastQ lastA) resp2,
        2, some forced⟩ := by
  simp [intakeNextTurn, hact, hrem]

/-- Claim C1 counterexample: a profile in which every deep path but the last
is already marked asked, with a pending answer for that last path.
`allow_finish` is false and the oracle replies FINISH, yet the turn makes
only the single oracle call and returns the FINISH response, because the
forced-continuation trigger recomputes the remaining paths only after the
pending question is marked asked. -/
theorem C1_counterexample :
    allowFinish "deep"
        (Val.obj [("_meta", Val.obj [("asked_paths",
          Val.list (DEEP_PATHS_ORDER.dropLast.map Val.str))])]) = false ∧
    pyGet (Val.obj [("action", Val.str "FINISH")]) "action" = Val.str "FINISH" ∧
    (intakeNextTurn "deep"
        (Val.obj [("_meta", Val.obj [("asked_paths",
          Val.list (DEEP_PATHS_ORDER.dropLast.map Val.str))])])
        (some "10") (some "list_size_target")
        (Val.obj [("action", Val.str "FINISH")])
        (Val.obj [("action", Val.str "ASK")])).oracleCalls = 1 ∧
    (intakeNextTurn "deep"
        (Val.obj [("_meta", Val.obj [("asked_paths",
          Val.list (DEEP_PATHS_ORDER.dropLast.map Val.str))])])
        (some "10") (some "list_size_target")
        (Val.obj [("action", Val.str "FINISH")])
        (Val.obj [("action", Val.str "ASK")])).data = Val.obj [("action", Val.str "FINISH")] := by
  decide

/-- Witness for C1: on an empty profile a premature FINISH triggers the one
forced second call. -/
theorem C1_witness :
    (intakeNextTurn "deep" (Val.obj []) none none
        (Val.obj [("action", Val.str "FINISH")])
        (Val.obj [("action", Val.str "ASK")])).oracleCalls = 2 := by
  rw [C1_forced_continuation (Val.obj []) none none
        (Val.obj [("action", Val.str "FINISH")])
        (Val.obj [("action", Val.str "ASK")])
        "us_only" DEEP_PATHS_ORDER.tail rfl (by decide)]

/-- Claim C5 counterexample: the intake agent does not short-circuit on a
profile that records `us_only = False`; it still consults the oracle (one
call) and returns the oracle's response rather than `END_NOT_US`. -/
theorem C5_counterexample :
    getByPath (Val.obj [("us_only", Val.bool false)]) "us_only" = Val.bool false ∧
    (intakeNextTurn "deep" (Val.obj [("us_only", Val.bool false)]) none none
        (Val.obj [("action", Val.str "ASK")]) (Val.obj [])).data
      = Val.obj [("action", Val.str "ASK")] ∧
    (intakeNextTurn "deep" (Val.obj [("us_only", Val.bool false)]) none none
        (Val.obj [("action", Val.str "ASK")]) (Val.obj [])).oracleCalls = 1 := by
  decide

/-- Claim C7: `_parse_date_str` maps `"March 3rd, 2026"` and `"3/3/26"` to
`"2026-03-03"` (two-digit years read as 2000s), passes any ISO-shaped string
through unchanged, and returns `None` unless one of the recognized patterns
(ISO shape, month-name date, slash date) matches — a deadline is never
fabricated. -/
theorem C7_deadline_normalization :
    parseDateStr "March 3rd, 2026" = some "2026-03-03"
      ∧ parseDateStr "3/3/26" = some "2026-03-03"
      ∧ (∀ s : String, isoShape s.data = true → parseDateStr s = some s)
      ∧ (∀ s : String, parseDateStr s ≠ none →
          isoShape (pyStrip s).data = true
            ∨ (searchMonth none (pyStrip s).data).isSome = true
            ∨ (searchSlash none (pyStrip s).data).isSome = true) := by
  refine ⟨by decide, by decide, ?_, ?_⟩
  · intro s h
    have hstrip : pyStrip s = s := pyStrip_eq_self (isoShape_all_not_ws h)
    have hne : s ≠ "" := by
      intro e
      rw [e] at h
      exact absurd h (by decide)
    simp [parseDateStr, hstrip, hne, h]
  · intro s h
    by_cases h1 : pyStrip s = ""
    · exact absurd (by simp [parseDateStr, h1]) h
    by_cases h2 : isoShape (pyStrip s).data = true
    · exact Or.inl h2
    cases hm : searchMonth none (pyStrip s).data with
    | some r => exact Or.inr (Or.inl (by simp [hm]))
    | none =>
        cases hsl : searchSlash none (pyStrip s).data with
        | some r => exact Or.inr (Or.inr (by simp [hsl]))
        | none =>
            exact absurd (by simp [parseDateStr, h1, h2, hm, hsl]) h

/-- Witness for C7: a concrete ISO-shaped string passes through unchanged. -/
theorem C7_witness : parseDateStr "2030-12-31" = some "2030-12-31" :=
  C7_deadline_normalization.2.2.1 "2030-12-31" (by decide)

/-- Claim C4: whenever an eligible unanswered gating question exists on the
profile with the pending answer applied, the scholarships turn makes no
oracle call; with credentials configured and `us_only` not false it returns
ASK carrying the first such question in gating-list order with its
`depends_on` removed. -/
theorem C4_gating_precedence (maxRecs : Nat) (probe : String → Bool)
    (extract : String → Option String) (oracle : SchParsed) (profile : Val)
    (lastA lastQ : Option String) (q : Val)
    (hq : nextGatingQuestion (schApplyAnswer profile lastQ lastA).2 = some q) :
    (∀ hasKey, (schNextTurn maxRecs probe extract hasKey oracle profile lastA lastQ).oracleCalls = 0)
      ∧ (getByPath profile "us_only" ≠ Val.bool false →
          schNextTurn maxRecs probe extract true oracle profile lastA lastQ =
            ⟨⟨"ASK", some q, (schApplyAnswer profile lastQ lastA).1,
              "Quick eligibility question so I can target the right college-specific scholarships.",
              none⟩, (schApplyAnswer profile lastQ lastA).2, 0⟩)
      ∧ (∀ pr : Val, nextGatingQuestion pr
            = (GATING_QUESTIONS.find? (gatingElig pr)).map stripDependsOn) := by
  refine ⟨?_, ?_, fun pr => nextGatingFrom_eq_find pr GATING_QUESTIONS⟩
  · intro hasKey
    by_cases hus : getByPath profile "us_only" = Val.bool false
    · simp [schNextTurn, hus]
    · cases hasKey with
      | false => simp [schNextTurn, hus]
      | true => simp [schNextTurn, hus, hq]
  · intro hus
    simp [schNextTurn, hus, hq]

/-- Witness for C4: on an empty profile the first gating question is asked
with no oracle call. -/
theorem C4_witness :
    (schNextTurn 8 (fun _ => true) (fun _ => none) true ⟨"CLARIFY", none, [], "", none⟩
        (Val.obj []) none none).oracleCalls = 0 :=
  (C4_gating_precedence 8 (fun _ => true) (fun _ => none) ⟨"CLARIFY", none, [], "", none⟩
    (Val.obj []) none none
    (Val.obj [("id", .str "scholarships.student_level"),
      ("text", .str "What is your current student level for scholarship eligibility?"),
      ("answer_type", .str "choice"),
      ("options", .list [.str "High school senior", .str "High school junior",
        .str "College freshman", .str "Transfer applicant", .str "Other", .str "Skip"])])
    (by decide)).1 true

/-- Claim C5 (amended): the scholarships agent short-circuits at the very
start to END_NOT_US when the profile records `us_only = False`: no oracle
call, the pending answer not applied, an empty profile patch, and the input
profile returned unchanged.  (The intake agent has no such short-circuit;
see the counterexample.) -/
theorem C5_not_us_short_circuit (maxRecs : Nat) (probe : String → Bool)
    (extract : String → Option String) (hasKey : Bool) (oracle : SchParsed)
    (profile : Val) (lastA lastQ : Option String)
    (h : getByPath profile "us_only" = Val.bool false) :
    schNextTurn maxRecs probe extract hasKey oracle profile lastA lastQ =
      ⟨⟨"END_NOT_US", none, [],
        "This scholarships flow currently targets US-based scholarships.", none⟩, profile, 0⟩ := by
  simp [schNextTurn, h]

/-- Witness for C5: the short-circuit on a concrete non-US profile, with a
pending answer that is left unapplied. -/
theorem C5_witness :
    schNextTurn 8 (fun _ => true) (fun _ => none) true ⟨"ASK", none, [], "", none⟩
        (Val.obj [("us_only", Val.bool false)]) (some "CA") (some "state_of_residence") =
      ⟨⟨"END_NOT_US", none, [],
        "This scholarships flow currently targets US-based scholarships.", none⟩,
        Val.obj [("us_only", Val.bool false)], 0⟩ :=
  C5_not_us_short_circuit 8 (fun _ => true) (fun _ => none) true ⟨"ASK", none, [], "", none⟩
    (Val.obj [("us_only", Val.bool false)]) (some "CA") (some "state_of_residence") (by decide)

/-- Claim C6: the verifier truncates to at most `max_recommendations` before
verification; every kept candidate descends from one of the first
`max_recommendations` candidates, has an absolute http(s) link whose probe
succeeded (exceptions count as failure), and carries the rewritten deadline;
a RECOMMEND whose verified list is empty is downgraded to CLARIFY with the
clarification note and no question, and otherwise stays RECOMMEND. -/
theorem C6_verifier_postcondition (maxRecs : Nat) (probe : String → Bool)
    (extract : String → Option String) (turn : SchTurn) (recs : List SchRec)
    (h : turn.recommendations = some recs) :
    ∃ v, (verifyRecsPhase maxRecs probe extract turn).recommendations = some v
      ∧ v.length ≤ maxRecs
      ∧ (∀ r ∈ v, (strStartsWith r.link "http://" || strStartsWith r.link "https://") = true
          ∧ probe r.link = true
          ∧ ∃ r0 ∈ recs.take maxRecs,
              r = { r0 with deadline := newDeadline extract r0.link r0.deadline })
      ∧ (turn.action = "RECOMMEND" → v = [] →
          (verifyRecsPhase maxRecs probe extract turn).action = "CLARIFY"
            ∧ (verifyRecsPhase maxRecs probe extract turn).question = none
            ∧ (verifyRecsPhase maxRecs probe extract turn).note_to_user = downgradeNote)
      ∧ (turn.action = "RECOMMEND" → v ≠ [] →
          (verifyRecsPhase maxRecs probe extract turn).action = "RECOMMEND") := by
  refine ⟨verifiedList maxRecs probe extract recs, ?_, ?_, ?_, ?_, ?_⟩
  · by_cases hc : turn.action = "RECOMMEND" ∧ verifiedList maxRecs probe extract recs = [] <;>
      simp [verifyRecsPhase, h, hc]
  · calc (verifiedList maxRecs probe extract recs).length
        ≤ (recs.take maxRecs).length := List.length_filterMap_le _ _
      _ ≤ maxRecs := by simp [List.length_take]
  · intro r hr
    obtain ⟨r0, hr0, hf⟩ := List.mem_filterMap.mp hr
    by_cases hv : verifyLink probe r0.link = true
    · rw [if_pos hv] at hf
      obtain ⟨hs, hp⟩ := verifyLink_eq_true hv
      have hre : r = { r0 with deadline := newDeadline extract r0.link r0.deadline } :=
        (Option.some.inj hf).symm
      refine ⟨?_, ?_, r0, hr0, hre⟩
      · rw [hre]; exact hs
      · rw [hre]; exact hp
    · rw [if_neg hv] at hf
      exact absurd hf (by simp)
  · intro ha hv
    simp [verifyRecsPhase, h, ha, hv]
  · intro ha hv
    simp [verifyRecsPhase, h, ha, hv]

/-- Witness for C6: a RECOMMEND whose only candidate has a non-URL link is
downgraded to CLARIFY. -/
theorem C6_witness :
    (verifyRecsPhase 8 (fun _ => false) (fun _ => none)
        ⟨"RECOMMEND", none, [], "",
          some [⟨"S", none, "external", none, none, none, "not-a-url", "w", [], []⟩]⟩).action
      = "CLARIFY" := by
  obtain ⟨v, hrec, _, _, hdown, _⟩ := C6_verifier_postcondition 8 (fun _ => false) (fun _ => none)
    ⟨"RECOMMEND", none, [], "",
      some [⟨"S", none, "external", none, none, none, "not-a-url", "w", [], []⟩]⟩
    [⟨"S", none, "external", none, none, none, "not-a-url", "w", [], []⟩] rfl
  have hv : v = [] := by
    have h2 : some v = some ([] : List SchRec) := by
      rw [← hrec]; decide
    exact Option.some.inj h2
  exact (hdown rfl hv).1

/-- Claim C10 (amended): provided every readable store parses to a JSON
object, `load_student_context` succeeds and contributes, for each store, the
"File not generated yet." marker when missing, the "Error reading file."
marker on undecodable JSON, the "No data found for this user." marker when
the client's entry is absent or falsy, and the client's sub-document
verbatim otherwise. -/
theorem C10_context_aggregation (stores : String → StoreState) (clientId : String)
    (h : ∀ f ∈ contextFiles, storeWellFormed (stores f) = true) :
    loadStudentContext stores clientId = .ok (contextSpecList stores clientId) :=
  loadStudentContextFrom_ok stores clientId contextFiles h

/-- Claim C10 counterexample: a store file holding a JSON array makes the
call raise (`full_data.get` on a list), and a present-but-empty client entry
is reported as "No data found for this user." instead of being included
verbatim. -/
theorem C10_counterexample :
    loadStudentContext (fun _ => .parsed (Val.list [])) "u" = .error ()
      ∧ loadStudentContext (fun _ => .parsed (Val.obj [("u", Val.obj [])])) "u"
          = .ok (contextFiles.map fun f =>
              (storeKeyName f, Val.str "No data found for this user."))
      ∧ pyGet (Val.obj [("u", Val.obj [])]) "u" = Val.obj [] :=
  ⟨rfl, rfl, rfl⟩

/-- Witness for C10: a concrete mix of present, undecodable and missing
stores aggregates to exactly the promised entries. -/
theorem C10_witness :
    loadStudentContext
        (fun f => if f = "intake_profiles.json" then
            .parsed (Val.obj [("u", Val.obj [("gpa", Val.num 4)])])
          else if f = "advisor_results.json" then .badJson else .missing) "u"
      = .ok (contextSpecList
          (fun f => if f = "intake_profiles.json" then
              .parsed (Val.obj [("u", Val.obj [("gpa", Val.num 4)])])
            else if f = "advisor_results.json" then .badJson else .missing) "u") :=
  C10_context_aggregation _ "u" (by decide)

/-- Claim C8: applying the same PatchOp list twice yields the same document
as applying it once. -/
theorem C8_patch_idempotent (d : Val) (ops : List Val) :
    applyPatchOps (applyPatchOps d ops) ops = applyPatchOps d ops := by
  simp only [applyPatchOps_eq_foldSet]
  exact foldSet_idem _ _

end CollegeAiBot
